import Mathlib

/-!
Verification of the git source-acquisition layer (`src/cargo/sources/git/utils.rs`).

The development shallowly embeds the data model and operations of the file:
repositories on disk are modelled as a `World` (an association list from paths
to repository states plus a set of existing directories and a map of remote
URLs to remote repository states), and every side-effecting operation is a
function in an explicit state-and-exception monad `M` that additionally
records a trace of observable network/filesystem events (fetches, clones,
hard resets, directory removals).  Pure operations (`rev_for`, `is_fresh`,
the credential callback) are embedded as pure functions.
-/

namespace CargoGit

/-- Object ids are modelled as natural numbers. -/
abbrev Oid := Nat

/-- Filesystem paths are modelled as strings. -/
abbrev Path := String

/-! ### Association-list helpers -/

/-- First-match lookup in an association list. -/
def alookup {κ α : Type} [DecidableEq κ] : List (κ × α) → κ → Option α
  | [], _ => none
  | kv :: rest, k => if kv.1 = k then some kv.2 else alookup rest k

/-- Update (or insert) a binding in an association list. -/
def aset {κ α : Type} [DecidableEq κ] : List (κ × α) → κ → α → List (κ × α)
  | [], k, v => [(k, v)]
  | kv :: rest, k, v => if kv.1 = k then (k, v) :: rest else kv :: aset rest k v

/-- Boolean membership for a list of strings. -/
def memStr : List String → String → Bool
  | [], _ => false
  | x :: rest, s => if x = s then true else memStr rest s

theorem alookup_aset_self {κ α : Type} [DecidableEq κ] (l : List (κ × α)) (k : κ) (v : α) :
    alookup (aset l k v) k = some v := by
  induction l with
  | nil => simp [aset, alookup]
  | cons kv rest ih =>
    by_cases h : kv.1 = k <;> simp [aset, alookup, h, ih]

theorem alookup_aset_ne {κ α : Type} [DecidableEq κ] (l : List (κ × α)) (k q : κ) (v : α)
    (h : q ≠ k) : alookup (aset l k v) q = alookup l q := by
  have hkq : ¬ k = q := fun hh => h hh.symm
  induction l with
  | nil => simp [aset, alookup, hkq]
  | cons kv rest ih =>
    by_cases hk : kv.1 = k
    · subst hk
      have hne : ¬ kv.1 = q := hkq
      simp [aset, alookup, hne]
    · by_cases hq : kv.1 = q <;> simp [aset, alookup, hk, hq, ih, h]

theorem alookup_append_left {κ α : Type} [DecidableEq κ] (a b : List (κ × α)) (k : κ) (v : α)
    (h : alookup a k = some v) : alookup (a ++ b) k = some v := by
  induction a with
  | nil => simp [alookup] at h
  | cons kv rest ih =>
    by_cases hk : kv.1 = k <;> simp_all [alookup]

theorem alookup_append_right {κ α : Type} [DecidableEq κ] (a b : List (κ × α)) (k : κ)
    (h : alookup a k = none) : alookup (a ++ b) k = alookup b k := by
  induction a with
  | nil => simp [alookup]
  | cons kv rest ih =>
    by_cases hk : kv.1 = k <;> simp_all [alookup]

theorem alookup_filter_of_keep {κ α : Type} [DecidableEq κ] (l : List (κ × α))
    (f : κ × α → Bool) (k : κ) (hkeep : ∀ v, f (k, v) = true) :
    alookup (l.filter f) k = alookup l k := by
  induction l with
  | nil => simp [alookup]
  | cons kv rest ih =>
    by_cases hk : kv.1 = k
    · subst hk
      have : f kv = true := by have := hkeep kv.2; simpa using this
      simp [List.filter, this, alookup, ih]
    · cases hf : f kv <;> simp [List.filter, hf, alookup, hk, ih]

theorem memStr_filter_of_keep (l : List String) (f : String → Bool) (s : String)
    (hkeep : f s = true) : memStr (l.filter f) s = memStr l s := by
  induction l with
  | nil => simp [memStr]
  | cons x rest ih =>
    by_cases hx : x = s
    · subst hx; simp [List.filter, hkeep, memStr, ih]
    · cases hf : f x <;> simp [List.filter, hf, memStr, hx, ih]

/-! ### String prefix helper -/

/-- `strStarts p s` holds when the string `p` is an initial segment of `s`. -/
def strStarts (p s : String) : Bool := p.data.isPrefixOf s.data

theorem strStarts_iff (p s : String) : strStarts p s = true ↔ p.data <+: s.data := by
  simp [strStarts, List.isPrefixOf_iff_prefix]

/-- `under p q` holds when `q` lies strictly below the directory `p`. -/
def under (p q : Path) : Bool := strStarts (p ++ "/") q

/-- `underPath p q` holds when `q` is `p` itself or lies below it. -/
def underPath (p q : Path) : Bool := q == p || under p q

theorem under_trans {p q r : Path} (h₁ : under p q = true) (h₂ : under q r = true) :
    under p r = true := by
  rw [under, strStarts_iff] at h₁ h₂ ⊢
  exact h₁.trans ((List.prefix_append q.data "/".data).trans h₂)

theorem under_self_false (p : Path) : under p p = false := by
  by_contra h
  have h' : under p p = true := by
    cases hu : under p p
    · exact absurd hu h
    · rfl
  rw [under, strStarts_iff] at h'
  have hlen := h'.length_le
  simp [String.data_append, List.length_append] at hlen

theorem under_append (p c : Path) : under p (p ++ "/" ++ c) = true := by
  rw [under, strStarts_iff]
  simp [String.data_append]

theorem underPath_of_under {p q : Path} (h : under p q = true) : underPath p q = true := by
  simp [underPath, h]

theorem not_under_of_underPath_false {p q : Path} (h : underPath p q = false) :
    under p q = false := by
  simp [underPath] at h
  exact h.2

/-! ### Hex encoding of object ids

The source compares revisions through the hex rendering of their object ids
(`head.id().to_string() == self.revision.to_string()`).  We embed the hex
rendering with a fuel-based structural recursion so that it evaluates by
kernel reduction, and prove it injective via an explicit left inverse. -/

/-- One hex digit. -/
def hexChar (n : Nat) : Char :=
  if n < 10 then Char.ofNat (48 + n) else Char.ofNat (87 + n)

/-- Big-endian hex digits of `n`, with fuel for termination. -/
def hexRep : Nat → Nat → List Char
  | 0, _ => []
  | fuel + 1, n => if n = 0 then [] else hexRep fuel (n / 16) ++ [hexChar (n % 16)]

/-- The hex rendering of an object id, as produced by `Oid::to_string`. -/
def oidHex (n : Oid) : String :=
  if n = 0 then "0" else String.mk (hexRep n n)

/-- Numeric value of one hex digit character. -/
def hexVal (c : Char) : Nat :=
  if c.toNat ≥ 97 then c.toNat - 87 else c.toNat - 48

/-- Left inverse of `hexRep`: fold the digits back into a number. -/
def fromHex (l : List Char) : Nat :=
  l.foldl (fun acc c => 16 * acc + hexVal c) 0

theorem hexVal_hexChar (n : Nat) (h : n < 16) : hexVal (hexChar n) = n := by
  interval_cases n <;> decide

theorem fromHex_append (l : List Char) (c : Char) :
    fromHex (l ++ [c]) = 16 * fromHex l + hexVal c := by
  simp [fromHex, List.foldl_append]

theorem hexRep_stable (fuel n : Nat) (h : n ≤ fuel) :
    hexRep fuel n = hexRep n n := by
  induction fuel using Nat.strong_induction_on generalizing n with
  | _ fuel ih =>
    match fuel with
    | 0 =>
      have : n = 0 := Nat.le_zero.mp h
      subst this; rfl
    | fuel + 1 =>
      by_cases hn : n = 0
      · subst hn
        simp [hexRep]
      · have hpos : 0 < n := Nat.pos_of_ne_zero hn
        obtain ⟨m, hm⟩ : ∃ m, n = m + 1 := ⟨n - 1, by omega⟩
        subst hm
        have hdiv : (m + 1) / 16 ≤ fuel := by
          have := Nat.div_le_self (m + 1) 16
          omega
        have hdiv2 : (m + 1) / 16 ≤ m := by
          have := Nat.div_lt_self (Nat.succ_pos m) (by omega : 1 < 16)
          omega
        simp only [hexRep, if_neg hn]
        rw [ih fuel (Nat.lt_succ_self fuel) _ hdiv,
            ← ih m (by omega) _ hdiv2]

theorem fromHex_hexRep (n : Nat) : fromHex (hexRep n n) = n := by
  induction n using Nat.strong_induction_on with
  | _ n ih =>
    match n with
    | 0 => simp [hexRep, fromHex]
    | m + 1 =>
      have hdiv : (m + 1) / 16 < m + 1 := Nat.div_lt_self (Nat.succ_pos m) (by omega)
      have hstable : hexRep m ((m + 1) / 16) = hexRep ((m + 1) / 16) ((m + 1) / 16) := by
        apply hexRep_stable; omega
      simp only [hexRep, if_neg (Nat.succ_ne_zero m)]
      rw [fromHex_append, hstable, ih _ hdiv, hexVal_hexChar _ (Nat.mod_lt _ (by omega))]
      omega

theorem oidHex_injective {a b : Oid} (h : oidHex a = oidHex b) : a = b := by
  have key : ∀ n : Oid, fromHex (oidHex n).data = n := by
    intro n
    by_cases hn : n = 0
    · subst hn; simp [oidHex]; decide
    · simp only [oidHex, if_neg hn]
      exact fromHex_hexRep n
  have := key a
  rw [h, key b] at this
  exact this.symm

theorem oidHex_beq_iff (a b : Oid) : (oidHex a == oidHex b) = true ↔ a = b := by
  constructor
  · intro h
    exact oidHex_injective (by simpa using h)
  · intro h; subst h; simp

/-! ### Errors (`CargoResult`, `chain_error`, `human`, `internal`) -/

/-- Errors produced by the embedded code.  `human` is a user-facing message,
`internal` a diagnostic context message, `giterr` a low-level libgit2 error,
`assertFail` the failure of a Rust `assert!`, and `chained` is the result of
`chain_error`: a new error whose cause is the old one. -/
inductive CargoError where
  | human (msg : String)
  | internal (msg : String)
  | giterr (msg : String)
  | assertFail (msg : String)
  | chained (err : CargoError) (cause : CargoError)
deriving DecidableEq, Repr

/-- `r.chain_error(|| ctx)` on a pure result: wrap an error with context. -/
def chainE {α : Type} (r : Except CargoError α) (ctx : CargoError) : Except CargoError α :=
  match r with
  | .ok a => .ok a
  | .error e => .error (.chained ctx e)

/-- `Result::is_err`. -/
def isErrE {α : Type} : Except CargoError α → Bool
  | .ok _ => false
  | .error _ => true

/-! ### The git world model

A `WorldRepo` is the state of one git repository: its object store, its
references, its resolved `HEAD`, an oracle for non-`HEAD` revision
expressions, its local branches, and the submodule entries declared in its
working tree. -/

/-- Kinds of objects in the object database that matter here: commits,
annotated tag objects (with their immediate target), and anything else. -/
inductive GitObjKind where
  | commit
  | tagObj (target : Oid)
  | other
deriving DecidableEq, Repr

/-- A URL, as passed to the fetch/clone primitives: either a `file://` URL of
a local path or a remote URL. -/
inductive Url where
  | file (p : Path)
  | remote (s : String)
deriving DecidableEq, Repr

/-- Rendering of a URL for error messages. -/
def Url.toStr : Url → String
  | .file p => "file://" ++ p
  | .remote s => s

/-- A submodule entry of a working tree: name (`None` when non-utf8), path
relative to the parent, url (`None` when non-utf8), and the commit recorded
for it in the parent tree (`None` when never checked out upstream). -/
structure SubmoduleEntry where
  name : Option String
  path : String
  url : Option Url
  headId : Option Oid
deriving DecidableEq, Repr

/-- The state of one repository on disk. `headRef` is `none` when `HEAD`
cannot be looked up at all, `some t` when the `HEAD` reference exists with
target `t` (`t = none` for a reference without a target). -/
structure WorldRepo where
  store : List (Oid × GitObjKind)
  refs : List (String × Oid)
  branches : List (String × Option Oid)
  headRef : Option (Option Oid)
  revs : List (String × Oid)
  submodules : List SubmoduleEntry
deriving DecidableEq, Repr

/-- The world: repositories on the local filesystem keyed by path, the set of
existing directories, and the repositories reachable over the network keyed
by URL string. -/
structure World where
  fs : List (Path × WorldRepo)
  dirs : List Path
  remotes : List (String × WorldRepo)
deriving DecidableEq, Repr

/-- Observable events of a run: network fetches (with the exact refspec list
passed to `remote.fetch`), clones, hard resets and directory removals. -/
inductive Event where
  | fetchEv (url : Url) (refspecs : List String)
  | cloneEv (url : Url) (dest : Path)
  | resetEv (path : Path) (rev : Oid)
  | rmdirEv (path : Path)
deriving DecidableEq, Repr

/-- Mutable program state: the world plus the event trace so far. -/
structure St where
  world : World
  events : List Event
deriving DecidableEq, Repr

/-- The effect monad: state transformer with errors.  The state is preserved
when an error is thrown (mutations made before the failure stay). -/
@[reducible] def M (α : Type) : Type := St → Except CargoError α × St

instance : Monad M where
  pure a := fun s => (.ok a, s)
  bind m f := fun s =>
    match m s with
    | (.ok a, s') => f a s'
    | (.error e, s') => (.error e, s')

theorem M_bind_apply {α β : Type} (m : M α) (f : α → M β) (s : St) :
    (m >>= f) s =
      match m s with
      | (.ok a, s') => f a s'
      | (.error e, s') => (.error e, s') := rfl

theorem M_pure_apply {α : Type} (a : α) (s : St) : (pure a : M α) s = (.ok a, s) := rfl

/-- Read the current state. -/
def getSt : M St := fun s => (.ok s, s)

/-- Transform the current state. -/
def modifySt (f : St → St) : M Unit := fun s => (.ok (), f s)

/-- Throw an error, keeping the state. -/
def mthrow {α : Type} (e : CargoError) : M α := fun s => (.error e, s)

/-- `chain_error` on a monadic action. -/
def chainErrorM {α : Type} (m : M α) (ctx : CargoError) : M α := fun s =>
  match m s with
  | (.ok a, s') => (.ok a, s')
  | (.error e, s') => (.error (.chained ctx e), s')

/-- Run an action on a world with an empty trace. -/
def runM {α : Type} (m : M α) (w : World) : Except CargoError α × St := m ⟨w, []⟩

/-- Append an event to the trace. -/
def emit (e : Event) : M Unit :=
  modifySt (fun s => { s with events := s.events ++ [e] })

/-- Add a directory to the set of existing directories. -/
def addDir (dirs : List Path) (p : Path) : List Path :=
  if memStr dirs p then dirs else p :: dirs

/-- Install (or replace) the repository at a path, which also makes the
directory exist. -/
def setRepo (p : Path) (r : WorldRepo) : M Unit :=
  modifySt (fun s =>
    { s with world :=
      { s.world with
        fs := aset s.world.fs p r
        dirs := addDir s.world.dirs p } })

/-- `rmdir_recursive`: remove the directory and everything below it. -/
def rmdirRec (p : Path) : M Unit := do
  emit (.rmdirEv p)
  modifySt (fun s =>
    { s with world :=
      { s.world with
        fs := s.world.fs.filter (fun kv => !underPath p kv.1)
        dirs := s.world.dirs.filter (fun d => !underPath p d) } })

/-- `mkdir_recursive`: make the directory exist; never fails. -/
def mkdirRec (p : Path) : M Unit :=
  modifySt (fun s =>
    { s with world := { s.world with dirs := addDir s.world.dirs p } })

/-! ### libgit2 primitives, modelled on the world -/

/-- Resolve a URL to the repository it denotes, if any: `file://` URLs point
into the local filesystem, other URLs into the network. -/
def resolveUrl (w : World) : Url → Option WorldRepo
  | .file p => alookup w.fs p
  | .remote s => alookup w.remotes s

/-- `git2::Repository::open`. -/
def git2_open (p : Path) : M WorldRepo := do
  let s ← getSt
  match alookup s.world.fs p with
  | some r => pure r
  | none => mthrow (.giterr ("failed to open repository at " ++ p))

/-- `Repository::revparse_single` on one repository.  `HEAD` resolves through
the repository's head reference; other expressions through the repository's
revision-expression oracle. -/
def WorldRepo.revparse_single (r : WorldRepo) (spec : String) : Except CargoError Oid :=
  if spec = "HEAD" then
    match r.headRef with
    | some (some o) => .ok o
    | _ => .error (.giterr "revspec 'HEAD' not found")
  else
    match alookup r.revs spec with
    | some o => .ok o
    | none => .error (.giterr ("revspec '" ++ spec ++ "' not found"))

/-- The contents a clone receives from its source repository: the object
store, references, branches, head and tree are copied. -/
def cloneOf (src : WorldRepo) : WorldRepo :=
  { store := src.store
    refs := src.refs
    branches := src.branches
    headRef := src.headRef
    revs := src.revs
    submodules := src.submodules }

/-- `git2::Repository::clone(url, into)`.  The attempt is recorded in the
trace; it fails when the destination directory already exists (libgit2
refuses to clone into an existing directory) or when the URL does not
resolve. -/
def git2_clone (url : Url) (into : Path) : M WorldRepo := do
  emit (.cloneEv url into)
  let s ← getSt
  if memStr s.world.dirs into then
    mthrow (.giterr ("'" ++ into ++ "' exists and is not an empty directory"))
  else
    match resolveUrl s.world url with
    | none => mthrow (.giterr ("failed to resolve address for " ++ url.toStr))
    | some src => do
        let r := cloneOf src
        setRepo into r
        pure r

/-- `git2::Repository::init_bare`. -/
def git2_init_bare (p : Path) : M WorldRepo := do
  let r : WorldRepo :=
    { store := [], refs := [], branches := [], headRef := none, revs := [], submodules := [] }
  setRepo p r
  pure r

/-- Effect of fetching `src` into `dst` with the branch refspec plus the
always-added tag refspec: branch and tag references and the fetched objects
are brought over; `HEAD`, the working tree and the revision oracle of the
destination are untouched. -/
def applyFetch (dst src : WorldRepo) : WorldRepo :=
  { dst with
    store := src.store ++ dst.store
    refs := src.refs.filter
        (fun kv => strStarts "refs/heads/" kv.1 || strStarts "refs/tags/" kv.1) ++ dst.refs
    branches := src.branches ++ dst.branches }

/-- The shared fetch primitive (`fn fetch` in the source): create an
anonymous remote for `url` with the given refspec, add the
`refs/tags/*:refs/tags/*` refspec, and fetch both in one operation. -/
def fetch (repoPath : Path) (url : Url) (refspec : String) : M Unit := do
  emit (.fetchEv url ["refs/tags/*:refs/tags/*", refspec])
  let s ← getSt
  match resolveUrl s.world url with
  | none => mthrow (.giterr ("failed to resolve address for " ++ url.toStr))
  | some src =>
      match alookup s.world.fs repoPath with
      | none => mthrow (.giterr ("failed to open repository at " ++ repoPath))
      | some dst => setRepo repoPath (applyFetch dst src)

/-! ### The embedded source types and operations -/

/-- `core::GitReference`: a tag name, a branch name, or a revision
expression. -/
inductive GitReference where
  | Tag (s : String)
  | Branch (s : String)
  | Rev (s : String)
deriving DecidableEq, Repr

/-- `GitRevision`: a resolved object id. -/
structure GitRevision where
  oid : Oid
deriving DecidableEq, Repr

/-- `GitRemote`: a remote repository, identified by its URL. -/
structure GitRemote where
  url : Url
deriving DecidableEq, Repr

/-- `GitDatabase`: the local bare mirror of a remote, at `path`. -/
structure GitDatabase where
  remote : GitRemote
  path : Path
deriving DecidableEq, Repr

/-- `GitCheckout`: a working-tree checkout of `revision`, cloned from
`database`, living at `location`. -/
structure GitCheckout where
  database : GitDatabase
  location : Path
  revision : Oid
deriving DecidableEq, Repr

/-- `Tag::peel`: recursively peel an object until a non-tag object is found,
with fuel bounding the tag chain. -/
def peelObj (repo : WorldRepo) : Nat → Oid → Except CargoError Oid
  | 0, _ => .error (.giterr "tag chain too deep")
  | fuel + 1, id =>
    match alookup repo.store id with
    | some (.tagObj t) => peelObj repo fuel t
    | some _ => .ok id
    | none => .error (.giterr ("object " ++ oidHex id ++ " not found"))

/-- `Repository::find_tag`: succeeds only when the object at `id` is an
annotated tag object. -/
def find_tag (repo : WorldRepo) (id : Oid) : Except CargoError Unit :=
  match alookup repo.store id with
  | some (.tagObj _) => .ok ()
  | some _ => .error (.giterr "the requested type does not match the type in the ODB")
  | none => .error (.giterr ("object " ++ oidHex id ++ " not found"))

/-- The inner closure of `rev_for` for tags: `refname_to_id`, `find_tag`,
`peel`. -/
def tag_lookup (repo : WorldRepo) (s : String) : Except CargoError Oid :=
  let refname := "refs/tags/" ++ s
  match alookup repo.refs refname with
  | none => .error (.giterr ("reference '" ++ refname ++ "' not found"))
  | some id =>
      match find_tag repo id with
      | .error e => .error e
      | .ok _ => peelObj repo (repo.store.length + 1) id

/-- The inner closure of `rev_for` for branches: `find_branch` then
`get().target()` with the `require` error. -/
def branch_lookup (repo : WorldRepo) (s : String) : Except CargoError Oid :=
  match alookup repo.branches s with
  | none => .error (.giterr ("branch '" ++ s ++ "' not found"))
  | some target =>
      match target with
      | some t => .ok t
      | none => .error (.human ("branch `" ++ s ++ "` did not have a target"))

/-- `GitDatabase::rev_for`: resolve a reference against the database's
repository. -/
def rev_for (repo : WorldRepo) (reference : GitReference) : Except CargoError GitRevision :=
  match reference with
  | .Tag s =>
      (chainE (tag_lookup repo s) (.human ("failed to find tag `" ++ s ++ "`"))).map
        GitRevision.mk
  | .Branch s =>
      (chainE (branch_lookup repo s) (.human ("failed to find branch `" ++ s ++ "`"))).map
        GitRevision.mk
  | .Rev s =>
      (repo.revparse_single s).map GitRevision.mk

/-- `GitDatabase::has_ref`: probe a revision expression for existence. -/
def has_ref (repo : WorldRepo) (reference : String) : Except CargoError Unit :=
  (repo.revparse_single reference).map (fun _ => ())

/-- The branch refspec used everywhere (`refs/heads/*:refs/heads/*`). -/
def headsRefspec : String := "refs/heads/*:refs/heads/*"

/-- The tag refspec added by the fetch primitive. -/
def tagsRefspec : String := "refs/tags/*:refs/tags/*"

/-- `GitRemote::fetch_into`: fetch the remote's URL into an existing database
repository with the branch refspec. -/
def GitRemote.fetch_into (r : GitRemote) (dst : Path) : M Unit :=
  fetch dst r.url headsRefspec

/-- `GitRemote::clone_into`: remove any existing directory, make a fresh
bare repository, and fetch the branch refspec into it. -/
def GitRemote.clone_into (r : GitRemote) (dst : Path) : M WorldRepo :=
  getSt >>= fun s =>
  (if memStr s.world.dirs dst then rmdirRec dst else pure ()) >>= fun _ =>
  mkdirRec dst >>= fun _ =>
  git2_init_bare dst >>= fun repo =>
  fetch dst r.url headsRefspec >>= fun _ =>
  pure repo

/-- `GitRemote::checkout`: open-and-fetch when a repository already exists at
the cache path, otherwise clone afresh; either way yield a database bound to
the path. -/
def GitRemote.checkout (r : GitRemote) (into : Path) : M GitDatabase :=
  getSt >>= fun s =>
  (match alookup s.world.fs into with
    | some _ =>
        chainErrorM (r.fetch_into into) (.internal ("failed to fetch into " ++ into))
    | none =>
        chainErrorM (r.clone_into into)
            (.internal ("failed to clone into: " ++ into)) >>= fun _ =>
        pure ()) >>= fun _ =>
  pure { remote := r, path := into }

/-- `GitRemote::db_at`: open an existing database without fetching. -/
def GitRemote.db_at (r : GitRemote) (dbPath : Path) : M GitDatabase := do
  let _ ← git2_open dbPath
  pure { remote := r, path := dbPath }

/-- `GitCheckout::is_fresh`: revparse `HEAD` in the checkout and compare its
hex rendering with the pinned revision's; any lookup failure counts as not
fresh. -/
def GitCheckout.is_fresh (c : GitCheckout) (w : World) : Bool :=
  match alookup w.fs c.location with
  | none => false
  | some repo =>
      match repo.revparse_single "HEAD" with
      | .ok head => oidHex head == oidHex c.revision
      | .error _ => false

/-- `GitCheckout::fetch`: fetch from the database's local path into the
checkout with the branch refspec. -/
def checkout_fetch (c : GitCheckout) : M Unit := do
  let url := Url.file c.database.path
  fetch c.location url headsRefspec

/-- `GitCheckout::reset`: look the pinned revision up in the checkout's
object store and hard-reset to it, which points `HEAD` at the revision. -/
def GitCheckout.reset (c : GitCheckout) : M Unit := do
  let repo ← git2_open c.location
  match alookup repo.store c.revision with
  | none => mthrow (.giterr ("object " ++ oidHex c.revision ++ " not found"))
  | some _ => do
      emit (.resetEv c.location c.revision)
      setRepo c.location { repo with headRef := some (some c.revision) }

/-- `GitCheckout::clone_repo`: make the parent directory, remove any
pre-existing directory at the destination, and clone the database's local
path into it. -/
def clone_repo (source : Path) (into : Path) : M WorldRepo :=
  let dirname := String.intercalate "/" (into.splitOn "/").dropLast
  chainErrorM (mkdirRec dirname) (.human ("Couldn't mkdir " ++ dirname)) >>= fun _ =>
  getSt >>= fun s =>
  (if memStr s.world.dirs into then
      chainErrorM (rmdirRec into) (.human ("Couldn't rmdir " ++ into))
    else pure ()) >>= fun _ =>
  chainErrorM (git2_clone (Url.file source) into)
    (.internal ("failed to clone " ++ source ++ " into " ++ into))

/-- `GitCheckout::clone_into`: clone the database into the destination, then
unconditionally hard-reset the fresh clone to the pinned revision. -/
def GitCheckout.clone_into (into : Path) (database : GitDatabase) (revision : Oid) :
    M GitCheckout := do
  let _ ← clone_repo database.path into
  let checkout : GitCheckout :=
    { database := database, location := into, revision := revision }
  checkout.reset
  pure checkout

/-- Path of a submodule inside its parent's working tree. -/
def pathJoin (parent child : Path) : Path := parent ++ "/" ++ child

/-- `child.open().and_then(|r| Ok((try!(r.head()).target(), r)))`: open the
submodule's repository and read its `HEAD` target. -/
def subHeadAndRepo (w : World) (subPath : Path) : Except CargoError (Option Oid) :=
  match alookup w.fs subPath with
  | none => .error (.giterr ("failed to open submodule at " ++ subPath))
  | some r =>
      match r.headRef with
      | none => .error (.giterr "reference 'HEAD' not found")
      | some t => .ok t

/-- After the submodule fetch: look the recorded commit up in the
submodule's object store, hard-reset to it, and recurse into that
submodule's own submodules. -/
def subResetRecurse (recur : Path → M Unit) (subPath : Path) (head : Oid) : M Unit := do
  let s ← getSt
  match alookup s.world.fs subPath with
  | none => mthrow (.giterr ("failed to open repository at " ++ subPath))
  | some r =>
      match alookup r.store head with
      | none => mthrow (.giterr ("object " ++ oidHex head ++ " not found"))
      | some _ => do
          emit (.resetEv subPath head)
          setRepo subPath { r with headRef := some (some head) }
          recur subPath

/-- The tail shared by both submodule repair paths: fetch branch and tag
refs from the submodule's URL, hard-reset to the recorded commit, and recurse
into that submodule's own submodules. -/
def subFetchReset (recur : Path → M Unit) (subPath : Path) (url : Url)
    (name : Option String) (head : Oid) : M Unit :=
  chainErrorM (fetch subPath url headsRefspec)
      (.internal ("failed to fetch submodule `" ++ name.getD "" ++ "` from " ++
        url.toStr)) >>= fun _ =>
  subResetRecurse recur subPath head

/-- The body of `update_submodules` for one list of submodule entries.
`recur` is the recursive call into a nested repository; it is a parameter so
that the list recursion stays structural. -/
def processSubs (recur : Path → M Unit) (parentPath : Path) :
    List SubmoduleEntry → M Unit
  | [] => pure ()
  | child :: rest => do
      -- child.init(false) only touches configuration: no observable effect.
      match child.url with
      | none => mthrow (.internal "non-utf8 url for submodule")
      | some url =>
          match child.headId with
          | none => processSubs recur parentPath rest
          | some head => do
              let subPath := pathJoin parentPath child.path
              let s ← getSt
              match subHeadAndRepo s.world subPath with
              | .ok t =>
                  if some head = t then
                    processSubs recur parentPath rest
                  else do
                    subFetchReset recur subPath url child.name head
                    processSubs recur parentPath rest
              | .error _ => do
                  let _ ← git2_clone url subPath
                  subFetchReset recur subPath url child.name head
                  processSubs recur parentPath rest

/-- `update_submodules`, recursing into nested submodules; the fuel bounds
the nesting depth (the source has no cycle guard and can recurse without
bound). -/
def update_submodules_rec : Nat → Path → M Unit
  | 0, _ => mthrow (.internal "submodule recursion limit exceeded")
  | fuel + 1, repoPath => do
      let s ← getSt
      match alookup s.world.fs repoPath with
      | none => mthrow (.giterr ("failed to open repository at " ++ repoPath))
      | some r => processSubs (update_submodules_rec fuel) repoPath r.submodules

/-- `GitCheckout::update_submodules`. -/
def GitCheckout.update_submodules (c : GitCheckout) (fuel : Nat) : M Unit :=
  update_submodules_rec fuel c.location

/-- `GitDatabase::copy_to`: materialize `rev` at `dest`, repairing or cloning
as needed, then synchronize submodules.  The `assert!(checkout.is_fresh())`
after a repair is modelled as throwing `CargoError.assertFail`. -/
def GitDatabase.copy_to (db : GitDatabase) (rev : Oid) (dest : Path) (fuel : Nat) :
    M GitCheckout :=
  getSt >>= fun s =>
  (match alookup s.world.fs dest with
    | some _ =>
        let c : GitCheckout := { database := db, location := dest, revision := rev }
        if c.is_fresh s.world then
          pure c
        else
          checkout_fetch c >>= fun _ =>
          c.reset >>= fun _ =>
          getSt >>= fun s' =>
          if c.is_fresh s'.world then
            pure c
          else
            mthrow (.assertFail "checkout.is_fresh()")
    | none => GitCheckout.clone_into dest db rev) >>= fun checkout =>
  chainErrorM (checkout.update_submodules fuel)
      (.internal "failed to update submodules") >>= fun _ =>
  pure checkout

/-! ### The authentication negotiator (`with_authentication`) -/

/-- The set of credential types the transport reports it will accept
(`git2::CredentialType`). -/
structure CredTypes where
  sshKey : Bool
  userPassPlaintext : Bool
  defaultCred : Bool
deriving DecidableEq, Repr

/-- A produced credential. -/
inductive Cred where
  | sshKey (user : String)
  | userPassHelper (user : Option String)
  | defaultCred
deriving DecidableEq, Repr

/-- The ambient git configuration and credential environment for one URL:
the username the credential helper resolves for the host (from the URL or
git config), whether a local SSH agent answers, and whether a credential
helper produces a username/password pair. -/
structure GitConfig where
  helperUsername : Option String
  agentOk : Bool
  helperOk : Bool
deriving DecidableEq, Repr

/-- `git2::Cred::ssh_key_from_agent`. -/
def ssh_key_from_agent (cfg : GitConfig) (user : String) : Except CargoError Cred :=
  if cfg.agentOk then .ok (.sshKey user)
  else .error (.giterr "failed to connect to ssh agent")

/-- `git2::Cred::credential_helper`. -/
def credential_helper (cfg : GitConfig) (username : Option String) : Except CargoError Cred :=
  if cfg.helperOk then .ok (.userPassHelper username)
  else .error (.giterr "no credential helper configured")

/-- The credentials closure installed by `with_authentication`: pick the
first credential type the transport accepts, resolving the SSH username as
explicit username, else the helper/config username, else `git`. -/
def credentials_callback (cfg : GitConfig) (cred_helper : Option String)
    (username : Option String) (allowed : CredTypes) : Except CargoError Cred :=
  if allowed.sshKey then
    let user := ((username).orElse (fun _ => cred_helper)).getD "git"
    ssh_key_from_agent cfg user
  else if allowed.userPassPlaintext then
    credential_helper cfg username
  else if allowed.defaultCred then
    .ok .defaultCred
  else
    .error (.giterr "no authentication available")

/-- The shape of the credential callback a network operation receives: given
the transport's username hint, the accepted credential types and the current
`cred_error` flag, produce credentials and the updated flag. -/
@[reducible] def CredCb : Type :=
  Option String → CredTypes → Bool → Except CargoError Cred × Bool

/-- `with_authentication`: run the network operation `f` with the
credentials closure; `cred_error` records whether the most recent credential
attempt failed, and when the operation ends with `cred_error` set its result
is chained with a user-facing authentication error. -/
def with_authentication {α : Type} (url : String) (cfg : GitConfig)
    (f : CredCb → Bool → Except CargoError α × Bool) : Except CargoError α :=
  let _ := url
  let cred_helper := cfg.helperUsername
  let cb : CredCb := fun username allowed _cred_error =>
    let creds := credentials_callback cfg cred_helper username allowed
    (creds, isErrE creds)
  let res := f cb false
  if res.2 then
    chainE res.1 (.human "Failed to authenticate when downloading repository")
  else
    res.1

/-- A network operation that raises a fixed list of credential challenges
(username hint and accepted types for each) and then finishes with `res`.
Used to exercise `with_authentication`. -/
def scriptTransport {α : Type} (script : List (Option String × CredTypes))
    (res : Except CargoError α) : CredCb → Bool → Except CargoError α × Bool :=
  fun cb st =>
    (res, script.foldl (fun acc ch => (cb ch.1 ch.2 acc).2) st)

/-! ### Program properties used by the frame and trace lemmas -/

/-- `writesUnder p m`: the action only modifies filesystem entries strictly
below the directory `p`. -/
def writesUnder (p : Path) {α : Type} (m : M α) : Prop :=
  ∀ s q, under p q = false →
    alookup (m s).2.world.fs q = alookup s.world.fs q ∧
    memStr (m s).2.world.dirs q = memStr s.world.dirs q

/-- `appendsTrace m`: the action only appends to the event trace. -/
def appendsTrace {α : Type} (m : M α) : Prop :=
  ∀ s, ∃ t, (m s).2.events = s.events ++ t

/-- An event is good when, if it is a fetch, it requests exactly the tag
refspec plus the branch refspec. -/
def goodEv (e : Event) : Prop :=
  ∀ url rs, e = .fetchEv url rs → rs = [tagsRefspec, headsRefspec]

/-- `emitsGood m`: every event the action adds to the trace is good. -/
def emitsGood {α : Type} (m : M α) : Prop :=
  ∀ s e, e ∈ (m s).2.events → e ∈ s.events ∨ goodEv e

/-- Bundle of the three properties, for one induction over the submodule
walk. -/
def tame (p : Path) {α : Type} (m : M α) : Prop :=
  writesUnder p m ∧ appendsTrace m ∧ emitsGood m

/-! ## Claims about the pure operations -/

/-- Claim C5: the credentials closure follows the fixed priority order
SSH-agent key, then credential-helper username/password, then default
credential, choosing the first type the transport accepts; the SSH username
is the explicit transport username if present, else the configured helper
username, else the literal `git`; when no type is accepted it fails with a
"no authentication available" condition. -/
theorem claim_C5 (cfg : GitConfig) (ch : Option String) (u : Option String) (a : CredTypes) :
    (a.sshKey = true →
      credentials_callback cfg ch u a =
        ssh_key_from_agent cfg
          (match u with
           | some explicitUser => explicitUser
           | none =>
             match ch with
             | some configUser => configUser
             | none => "git")) ∧
    (a.sshKey = false → a.userPassPlaintext = true →
      credentials_callback cfg ch u a = credential_helper cfg u) ∧
    (a.sshKey = false → a.userPassPlaintext = false → a.defaultCred = true →
      credentials_callback cfg ch u a = .ok .defaultCred) ∧
    (a.sshKey = false → a.userPassPlaintext = false → a.defaultCred = false →
      credentials_callback cfg ch u a = .error (.giterr "no authentication available")) := by
  refine ⟨fun h₁ => ?_, fun h₁ h₂ => ?_, fun h₁ h₂ h₃ => ?_, fun h₁ h₂ h₃ => ?_⟩
  · cases u <;> cases ch <;> simp [credentials_callback, h₁, Option.orElse]
  · simp [credentials_callback, h₁, h₂]
  · simp [credentials_callback, h₁, h₂, h₃]
  · simp [credentials_callback, h₁, h₂, h₃]

/-- Witness for C5 at a concrete configuration: the transport accepts only
SSH keys, no explicit or configured username is available, so the agent is
asked for the user `git`. -/
theorem claim_C5_witness :
    (⟨true, false, false⟩ : CredTypes).sshKey = true ∧
    credentials_callback ⟨none, true, true⟩ none none ⟨true, false, false⟩ =
      ssh_key_from_agent ⟨none, true, true⟩ "git" := by
  refine ⟨rfl, ?_⟩
  exact (claim_C5 ⟨none, true, true⟩ none none ⟨true, false, false⟩).1 rfl

/-- Claim C7: when the final credential attempt within a network operation
fails, the operation's error is replaced by the user-facing "failed to
authenticate" error (with the original error as its cause); when the final
attempt succeeds, the operation's result is propagated unreplaced. -/
theorem claim_C7 {α : Type} (url : String) (cfg : GitConfig)
    (script : List (Option String × CredTypes)) (ch : Option String × CredTypes)
    (res : Except CargoError α) :
    (∀ e, isErrE (credentials_callback cfg cfg.helperUsername ch.1 ch.2) = true →
       res = .error e →
       with_authentication url cfg (scriptTransport (script ++ [ch]) res) =
         .error (.chained (.human "Failed to authenticate when downloading repository") e)) ∧
    (isErrE (credentials_callback cfg cfg.helperUsername ch.1 ch.2) = false →
       with_authentication url cfg (scriptTransport (script ++ [ch]) res) = res) := by
  have hfold : ∀ (st : Bool),
      (script ++ [ch]).foldl
        (fun acc c =>
          ((fun (username : Option String) (allowed : CredTypes) (_ : Bool) =>
            let creds := credentials_callback cfg cfg.helperUsername username allowed
            (creds, isErrE creds)) c.1 c.2 acc).2) st =
        isErrE (credentials_callback cfg cfg.helperUsername ch.1 ch.2) := by
    intro st
    rw [List.foldl_append]
    simp
  constructor
  · intro e herr hres
    simp only [with_authentication, scriptTransport, hfold, herr, if_true, hres, chainE]
  · intro hok
    simp only [with_authentication, scriptTransport, hfold, hok, Bool.false_eq_true,
      if_false]

/-- Witness for C7: a transport whose single challenge accepts no credential
type; the operation's low-level error is wrapped in the user-facing
authentication error. -/
theorem claim_C7_witness :
    isErrE (credentials_callback ⟨none, true, true⟩ none none ⟨false, false, false⟩) = true ∧
    with_authentication "https://example.com/repo" ⟨none, true, true⟩
        (scriptTransport [(none, ⟨false, false, false⟩)]
          (.error (.giterr "early EOF") : Except CargoError Unit)) =
      .error (.chained (.human "Failed to authenticate when downloading repository")
        (.giterr "early EOF")) := by
  refine ⟨rfl, ?_⟩
  exact (claim_C7 "https://example.com/repo" ⟨none, true, true⟩ []
    (none, ⟨false, false, false⟩) (.error (.giterr "early EOF"))).1
    (.giterr "early EOF") rfl rfl

/-- Claim C6: the freshness test is a total boolean function; it succeeds
exactly when the checkout's repository opens, its `HEAD` resolves, and the
hex rendering of the resolved head equals that of the pinned revision (which
by injectivity of the rendering means the head is the pinned revision); in
particular every lookup failure yields `false` rather than an error. -/
theorem claim_C6 (c : GitCheckout) (w : World) :
    GitCheckout.is_fresh c w = true ↔
      ∃ r, alookup w.fs c.location = some r ∧ r.headRef = some (some c.revision) := by
  constructor
  · intro h
    unfold GitCheckout.is_fresh at h
    cases hl : alookup w.fs c.location with
    | none => rw [hl] at h; simp at h
    | some r =>
      rw [hl] at h
      refine ⟨r, rfl, ?_⟩
      unfold WorldRepo.revparse_single at h
      simp only [if_pos rfl] at h
      cases hh : r.headRef with
      | none => rw [hh] at h; simp at h
      | some t =>
        cases t with
        | none => rw [hh] at h; simp at h
        | some o =>
          rw [hh] at h
          simp only at h
          have := (oidHex_beq_iff o c.revision).mp h
          rw [this]
  · rintro ⟨r, hl, hh⟩
    unfold GitCheckout.is_fresh WorldRepo.revparse_single
    rw [hl]
    simp [hh]

/-- Claim C8: a missing tag yields the user-facing error naming that exact
tag; a missing branch yields the user-facing error naming that exact branch;
and a branch whose reference has no target also yields a user-facing error
naming the branch. -/
theorem claim_C8 (repo : WorldRepo) (s : String) :
    (alookup repo.refs ("refs/tags/" ++ s) = none →
       ∃ cause, rev_for repo (.Tag s) =
         .error (.chained (.human ("failed to find tag `" ++ s ++ "`")) cause)) ∧
    (alookup repo.branches s = none →
       ∃ cause, rev_for repo (.Branch s) =
         .error (.chained (.human ("failed to find branch `" ++ s ++ "`")) cause)) ∧
    (alookup repo.branches s = some none →
       rev_for repo (.Branch s) =
         .error (.chained (.human ("failed to find branch `" ++ s ++ "`"))
                          (.human ("branch `" ++ s ++ "` did not have a target")))) := by
  refine ⟨fun h => ?_, fun h => ?_, fun h => ?_⟩
  · exact ⟨.giterr ("reference '" ++ ("refs/tags/" ++ s) ++ "' not found"),
      by simp [rev_for, tag_lookup, h, chainE, Except.map]⟩
  · exact ⟨.giterr ("branch '" ++ s ++ "' not found"),
      by simp [rev_for, branch_lookup, h, chainE, Except.map]⟩
  · simp [rev_for, branch_lookup, h, chainE, Except.map]

/-- Witness for C8: the empty repository, where neither the tag `v1` nor the
branch `main` exists, and a repository where `main` exists without target. -/
theorem claim_C8_witness :
    (alookup (WorldRepo.mk [] [] [] none [] []).refs ("refs/tags/" ++ "v1") = none) ∧
    (∃ cause, rev_for (WorldRepo.mk [] [] [] none [] []) (.Tag "v1") =
      .error (.chained (.human ("failed to find tag `" ++ "v1" ++ "`")) cause)) ∧
    (∃ cause, rev_for (WorldRepo.mk [] [] [] none [] []) (.Branch "main") =
      .error (.chained (.human ("failed to find branch `" ++ "main" ++ "`")) cause)) ∧
    rev_for (WorldRepo.mk [] [] [("main", none)] none [] []) (.Branch "main") =
      .error (.chained (.human ("failed to find branch `" ++ "main" ++ "`"))
                       (.human ("branch `" ++ "main" ++ "` did not have a target"))) := by
  refine ⟨rfl, ?_, ?_, ?_⟩
  · exact (claim_C8 (WorldRepo.mk [] [] [] none [] []) "v1").1 rfl
  · exact (claim_C8 (WorldRepo.mk [] [] [] none [] []) "main").2.1 rfl
  · exact (claim_C8 (WorldRepo.mk [] [] [("main", none)] none [] []) "main").2.2 rfl

/-- A repository with a lightweight tag: `refs/tags/v1` points directly at a
commit object rather than at an annotated tag object. -/
def lightweightTagRepo : WorldRepo :=
  { store := [(1, .commit)]
    refs := [("refs/tags/v1", 1)]
    branches := []
    headRef := none
    revs := []
    submodules := [] }

/-- Counterexample to claim C3: when `refs/tags/v1` points directly at a
commit, `rev_for` does not return that commit's id; `find_tag` rejects the
non-tag object and the user-facing "failed to find tag" error is produced
instead. -/
theorem claim_C3_cex :
    rev_for lightweightTagRepo (.Tag "v1") ≠ .ok (GitRevision.mk 1) ∧
    rev_for lightweightTagRepo (.Tag "v1") =
      .error (.chained (.human "failed to find tag `v1`")
        (.giterr "the requested type does not match the type in the ODB")) := by
  have heq : rev_for lightweightTagRepo (.Tag "v1") =
      .error (.chained (.human "failed to find tag `v1`")
        (.giterr "the requested type does not match the type in the ODB")) := by
    simp [rev_for, tag_lookup, lightweightTagRepo, alookup, find_tag, chainE, Except.map]
  refine ⟨?_, heq⟩
  rw [heq]
  intro h
  exact Except.noConfusion h

/-- Claim C3 (amended): `rev_for(Tag(name))` looks `refs/tags/{name}` up and
requires the object it names to be an annotated tag, which is peeled to the
commit it ultimately points at; a missing tag, a tag pointing directly at a
commit (a non-tag object), or a peel failure yields a user-facing error
naming the tag. -/
theorem claim_C3_amended (repo : WorldRepo) (s : String) (id : Oid) :
    (alookup repo.refs ("refs/tags/" ++ s) = some id →
      (∃ t, alookup repo.store id = some (.tagObj t)) →
      ∀ c, peelObj repo (repo.store.length + 1) id = .ok c →
      rev_for repo (.Tag s) = .ok (GitRevision.mk c)) ∧
    (isErrE (rev_for repo (.Tag s)) = true →
      ∃ cause, rev_for repo (.Tag s) =
        .error (.chained (.human ("failed to find tag `" ++ s ++ "`")) cause)) ∧
    (alookup repo.refs ("refs/tags/" ++ s) = some id →
      alookup repo.store id = some .commit →
      ∃ cause, rev_for repo (.Tag s) =
        .error (.chained (.human ("failed to find tag `" ++ s ++ "`")) cause)) := by
  refine ⟨fun href ⟨t, ht⟩ c hpeel => ?_, fun herr => ?_, fun href hc => ?_⟩
  · simp [rev_for, tag_lookup, href, find_tag, ht, hpeel, chainE, Except.map]
  · cases hinner : tag_lookup repo s with
    | ok v =>
      rw [rev_for, hinner] at herr
      simp [chainE, isErrE, Except.map] at herr
    | error e =>
      exact ⟨e, by rw [rev_for, hinner]; simp [chainE, Except.map]⟩
  · refine ⟨.giterr "the requested type does not match the type in the ODB", ?_⟩
    simp [rev_for, tag_lookup, href, find_tag, hc, chainE, Except.map]

/-- Witness for C3 (amended): an annotated tag pointing at a commit resolves
to that commit, and the lightweight tag of `lightweightTagRepo` produces the
user-facing error. -/
theorem claim_C3_witness :
    (alookup (WorldRepo.mk [(2, .tagObj 1), (1, .commit)] [("refs/tags/v1", 2)] [] none [] []).refs
        ("refs/tags/" ++ "v1") = some 2) ∧
    rev_for (WorldRepo.mk [(2, .tagObj 1), (1, .commit)] [("refs/tags/v1", 2)] [] none [] [])
      (.Tag "v1") = .ok (GitRevision.mk 1) ∧
    (∃ cause, rev_for lightweightTagRepo (.Tag "v1") =
      .error (.chained (.human ("failed to find tag `" ++ "v1" ++ "`")) cause)) := by
  refine ⟨rfl, ?_, ?_⟩
  · exact (claim_C3_amended
      (WorldRepo.mk [(2, .tagObj 1), (1, .commit)] [("refs/tags/v1", 2)] [] none [] [])
      "v1" 2).1 rfl ⟨1, rfl⟩ 1 rfl
  · exact (claim_C3_amended lightweightTagRepo "v1" 1).2.1 rfl

/-! ### Closure lemmas for the program properties -/

theorem memStr_cons_ne (l : List String) (x q : String) (h : q ≠ x) :
    memStr (x :: l) q = memStr l q := by
  have hx : ¬ x = q := fun hh => h hh.symm
  simp [memStr, hx]

theorem wu_of_stateless {α : Type} (p : Path) (m : M α)
    (h : ∀ s, (m s).2.world = s.world) : writesUnder p m := by
  intro s q _
  rw [h s]
  exact ⟨rfl, rfl⟩

theorem at_of_noEvents {α : Type} (m : M α)
    (h : ∀ s, (m s).2.events = s.events) : appendsTrace m := by
  intro s
  exact ⟨[], by rw [h s, List.append_nil]⟩

theorem eg_of_noEvents {α : Type} (m : M α)
    (h : ∀ s, (m s).2.events = s.events) : emitsGood m := by
  intro s e he
  rw [h s] at he
  exact Or.inl he

theorem wu_bind {p : Path} {α β : Type} {m : M α} {f : α → M β}
    (hm : writesUnder p m) (hf : ∀ a, writesUnder p (f a)) :
    writesUnder p (m >>= f) := by
  intro s q hq
  have hm' := hm s q hq
  rcases hms : m s with ⟨r, s'⟩
  rw [hms] at hm'
  cases r with
  | ok a =>
    have hf' := hf a s' q hq
    have heq : (m >>= f) s = f a s' := by rw [M_bind_apply, hms]
    rw [heq]
    exact ⟨hf'.1.trans hm'.1, hf'.2.trans hm'.2⟩
  | error e =>
    have heq : (m >>= f) s = (.error e, s') := by rw [M_bind_apply, hms]
    rw [heq]
    exact hm'

theorem at_bind {α β : Type} {m : M α} {f : α → M β}
    (hm : appendsTrace m) (hf : ∀ a, appendsTrace (f a)) :
    appendsTrace (m >>= f) := by
  intro s
  obtain ⟨t₁, ht₁⟩ := hm s
  rcases hms : m s with ⟨r, s'⟩
  rw [hms] at ht₁
  cases r with
  | ok a =>
    obtain ⟨t₂, ht₂⟩ := hf a s'
    have heq : (m >>= f) s = f a s' := by rw [M_bind_apply, hms]
    exact ⟨t₁ ++ t₂, by rw [heq, ht₂, ht₁, List.append_assoc]⟩
  | error e =>
    have heq : (m >>= f) s = (.error e, s') := by rw [M_bind_apply, hms]
    exact ⟨t₁, by rw [heq]; exact ht₁⟩

theorem eg_bind {α β : Type} {m : M α} {f : α → M β}
    (hm : emitsGood m) (hf : ∀ a, emitsGood (f a)) :
    emitsGood (m >>= f) := by
  intro s e he
  rcases hms : m s with ⟨r, s'⟩
  have hm' := hm s e
  rw [hms] at hm'
  cases r with
  | ok a =>
    have heq : (m >>= f) s = f a s' := by rw [M_bind_apply, hms]
    rw [heq] at he
    rcases hf a s' e he with h | h
    · exact hm' h
    · exact Or.inr h
  | error err =>
    have heq : (m >>= f) s = (.error err, s') := by rw [M_bind_apply, hms]
    rw [heq] at he
    exact hm' he

theorem wu_chainErrorM {p : Path} {α : Type} {m : M α} (c : CargoError)
    (hm : writesUnder p m) : writesUnder p (chainErrorM m c) := by
  intro s q hq
  have hm' := hm s q hq
  rcases hms : m s with ⟨r, s'⟩
  rw [hms] at hm'
  cases r <;> simp only [chainErrorM, hms] <;> exact hm'

theorem at_chainErrorM {α : Type} {m : M α} (c : CargoError)
    (hm : appendsTrace m) : appendsTrace (chainErrorM m c) := by
  intro s
  obtain ⟨t, ht⟩ := hm s
  rcases hms : m s with ⟨r, s'⟩
  rw [hms] at ht
  cases r <;> exact ⟨t, by simp only [chainErrorM, hms]; exact ht⟩

theorem eg_chainErrorM {α : Type} {m : M α} (c : CargoError)
    (hm : emitsGood m) : emitsGood (chainErrorM m c) := by
  intro s e he
  have hm' := hm s e
  rcases hms : m s with ⟨r, s'⟩
  rw [hms] at hm'
  cases r <;> simp only [chainErrorM, hms] at he <;> exact hm' he

theorem wu_emit (p : Path) (e : Event) : writesUnder p (emit e) :=
  wu_of_stateless p _ (fun _ => rfl)

theorem at_emit (e : Event) : appendsTrace (emit e) := by
  intro s
  exact ⟨[e], rfl⟩

theorem eg_emit (e : Event) (he : goodEv e) : emitsGood (emit e) := by
  intro s e' he'
  simp only [emit, modifySt] at he'
  rcases List.mem_append.mp he' with h | h
  · exact Or.inl h
  · rw [List.mem_singleton.mp h]
    exact Or.inr he

theorem wu_setRepo {p : Path} (r : Path) (x : WorldRepo) (hr : under p r = true) :
    writesUnder p (setRepo r x) := by
  intro s q hq
  have hne : q ≠ r := by
    intro h
    rw [h] at hq
    rw [hq] at hr
    exact Bool.noConfusion hr
  constructor
  · exact alookup_aset_ne _ _ _ _ hne
  · simp only [setRepo, modifySt, addDir]
    by_cases hd : memStr s.world.dirs r
    · simp [hd]
    · simp only [hd, if_false, Bool.false_eq_true]
      exact memStr_cons_ne _ _ _ hne

theorem at_setRepo (r : Path) (x : WorldRepo) : appendsTrace (setRepo r x) :=
  at_of_noEvents _ (fun _ => rfl)

theorem eg_setRepo (r : Path) (x : WorldRepo) : emitsGood (setRepo r x) :=
  eg_of_noEvents _ (fun _ => rfl)

theorem wu_mono {p p' : Path} {α : Type} {m : M α} (h : under p p' = true)
    (hm : writesUnder p' m) : writesUnder p m := by
  intro s q hq
  apply hm s q
  cases hq' : under p' q
  · rfl
  · exact absurd (under_trans h hq') (by rw [hq]; exact Bool.noConfusion)

theorem tame_pure (p : Path) {α : Type} (a : α) : tame p (pure a : M α) :=
  ⟨wu_of_stateless p _ (fun _ => rfl), at_of_noEvents _ (fun _ => rfl),
   eg_of_noEvents _ (fun _ => rfl)⟩

theorem tame_mthrow (p : Path) {α : Type} (e : CargoError) : tame p (mthrow e : M α) :=
  ⟨wu_of_stateless p _ (fun _ => rfl), at_of_noEvents _ (fun _ => rfl),
   eg_of_noEvents _ (fun _ => rfl)⟩

theorem tame_getSt (p : Path) : tame p getSt :=
  ⟨wu_of_stateless p _ (fun _ => rfl), at_of_noEvents _ (fun _ => rfl),
   eg_of_noEvents _ (fun _ => rfl)⟩

theorem tame_bind {p : Path} {α β : Type} {m : M α} {f : α → M β}
    (hm : tame p m) (hf : ∀ a, tame p (f a)) : tame p (m >>= f) :=
  ⟨wu_bind hm.1 (fun a => (hf a).1), at_bind hm.2.1 (fun a => (hf a).2.1),
   eg_bind hm.2.2 (fun a => (hf a).2.2)⟩

theorem tame_chainErrorM {p : Path} {α : Type} {m : M α} (c : CargoError)
    (hm : tame p m) : tame p (chainErrorM m c) :=
  ⟨wu_chainErrorM c hm.1, at_chainErrorM c hm.2.1, eg_chainErrorM c hm.2.2⟩

theorem tame_emit (p : Path) (e : Event) (he : goodEv e) : tame p (emit e) :=
  ⟨wu_emit p e, at_emit e, eg_emit e he⟩

theorem tame_setRepo {p : Path} (r : Path) (x : WorldRepo) (hr : under p r = true) :
    tame p (setRepo r x) :=
  ⟨wu_setRepo r x hr, at_setRepo r x, eg_setRepo r x⟩

theorem tame_mono {p p' : Path} {α : Type} {m : M α} (h : under p p' = true)
    (hm : tame p' m) : tame p m :=
  ⟨wu_mono h hm.1, hm.2.1, hm.2.2⟩

theorem tame_git2_clone {p : Path} (url : Url) (into : Path) (hr : under p into = true) :
    tame p (git2_clone url into) := by
  unfold git2_clone
  refine tame_bind (tame_emit p _ ?_) ?_
  · intro u rs h; cases h
  intro _
  refine tame_bind (tame_getSt p) ?_
  intro s
  by_cases hd : memStr s.world.dirs into = true
  · rw [if_pos hd]
    exact tame_mthrow p _
  · rw [if_neg hd]
    cases hres : resolveUrl s.world url with
    | none => exact tame_mthrow p _
    | some src => exact tame_bind (tame_setRepo _ _ hr) (fun _ => tame_pure p _)

theorem tame_fetch {p : Path} (rp : Path) (url : Url) (hr : under p rp = true) :
    tame p (fetch rp url headsRefspec) := by
  unfold fetch
  refine tame_bind (tame_emit p _ ?_) ?_
  · intro u rs h; cases h; rfl
  intro _
  refine tame_bind (tame_getSt p) ?_
  intro s
  cases hres : resolveUrl s.world url with
  | none => exact tame_mthrow p _
  | some src =>
    cases halk : alookup s.world.fs rp with
    | none => exact tame_mthrow p _
    | some dst => exact tame_setRepo _ _ hr

theorem tame_subResetRecurse {p : Path} (recur : Path → M Unit) (subPath : Path)
    (head : Oid) (hsub : under p subPath = true) (hrec : tame p (recur subPath)) :
    tame p (subResetRecurse recur subPath head) := by
  unfold subResetRecurse
  refine tame_bind (tame_getSt p) ?_
  intro s
  cases halk : alookup s.world.fs subPath with
  | none => exact tame_mthrow p _
  | some r =>
    have hgoal : tame p (match alookup r.store head with
        | none => (mthrow (.giterr ("object " ++ oidHex head ++ " not found")) : M Unit)
        | some _ => do
            emit (.resetEv subPath head)
            setRepo subPath { r with headRef := some (some head) }
            recur subPath) := by
      cases hst : alookup r.store head with
      | none => exact tame_mthrow p _
      | some k =>
        refine tame_bind (tame_emit p _ ?_) ?_
        · intro u rs h; cases h
        intro _
        exact tame_bind (tame_setRepo _ _ hsub) (fun _ => hrec)
    exact hgoal

theorem tame_subFetchReset {p : Path} (recur : Path → M Unit) (subPath : Path)
    (url : Url) (name : Option String) (head : Oid)
    (hsub : under p subPath = true) (hrec : tame p (recur subPath)) :
    tame p (subFetchReset recur subPath url name head) := by
  unfold subFetchReset
  exact tame_bind (tame_chainErrorM _ (tame_fetch subPath url hsub))
    (fun _ => tame_subResetRecurse recur subPath head hsub hrec)

theorem processSubs_tame (p : Path) (recur : Path → M Unit)
    (hrec : ∀ sub, under p sub = true → tame p (recur sub)) :
    ∀ l, tame p (processSubs recur p l) := by
  intro l
  induction l with
  | nil => exact tame_pure p ()
  | cons child rest ih =>
    unfold processSubs
    cases hcu : child.url with
    | none => exact tame_mthrow p _
    | some url =>
      cases hch : child.headId with
      | none => exact ih
      | some head =>
        refine tame_bind (tame_getSt p) ?_
        intro s
        have hsub : under p (pathJoin p child.path) = true := under_append p child.path
        cases hhr : subHeadAndRepo s.world (pathJoin p child.path) with
        | ok t =>
          have hgoal : tame p (if some head = t then processSubs recur p rest
              else (do
                subFetchReset recur (pathJoin p child.path) url child.name head
                processSubs recur p rest : M Unit)) := by
            by_cases heq : some head = t
            · rw [if_pos heq]
              exact ih
            · rw [if_neg heq]
              exact tame_bind
                (tame_subFetchReset recur _ url child.name head hsub (hrec _ hsub))
                (fun _ => ih)
          exact hgoal
        | error e =>
          have hgoal : tame p (do
              let _ ← git2_clone url (pathJoin p child.path)
              subFetchReset recur (pathJoin p child.path) url child.name head
              processSubs recur p rest : M Unit) := by
            refine tame_bind (tame_git2_clone url _ hsub) ?_
            intro _
            exact tame_bind
              (tame_subFetchReset recur _ url child.name head hsub (hrec _ hsub))
              (fun _ => ih)
          exact hgoal

theorem tame_update_submodules (fuel : Nat) (p : Path) :
    tame p (update_submodules_rec fuel p) := by
  induction fuel generalizing p with
  | zero => exact tame_mthrow p _
  | succ fuel ih =>
    unfold update_submodules_rec
    refine tame_bind (tame_getSt p) ?_
    intro s
    cases halk : alookup s.world.fs p with
    | none => exact tame_mthrow p _
    | some r =>
      refine processSubs_tame p _ ?_ r.submodules
      intro sub hsub
      exact tame_mono hsub (ih sub)

/-! ### Evaluation of the checkout-phase branches of `copy_to` -/

/-- The tail of `copy_to` after the checkout phase: synchronize submodules
(with its error context) and return the checkout. -/
def copyToTail (db : GitDatabase) (rev : Oid) (dest : Path) (fuel : Nat) : M GitCheckout :=
  chainErrorM (update_submodules_rec fuel dest)
      (.internal "failed to update submodules") >>=
    fun _ => pure (⟨db, dest, rev⟩ : GitCheckout)

theorem copy_to_fresh (db : GitDatabase) (rev : Oid) (dest : Path) (fuel : Nat) (w : World)
    (drepo : WorldRepo) (hopen : alookup w.fs dest = some drepo)
    (hfresh : GitCheckout.is_fresh ⟨db, dest, rev⟩ w = true) :
    GitDatabase.copy_to db rev dest fuel ⟨w, []⟩ =
      copyToTail db rev dest fuel ⟨w, []⟩ := by
  simp only [GitDatabase.copy_to, copyToTail, M_bind_apply, M_pure_apply, getSt, hopen,
    hfresh, if_true, GitCheckout.update_submodules]

/-- The state reached after the fetch-and-reset repair of a stale checkout:
the destination repository has absorbed the database's objects and refs and
its head points at the revision; the trace holds the fetch and the reset. -/
def staleState (db : GitDatabase) (rev : Oid) (dest : Path) (w : World)
    (drepo dbrepo : WorldRepo) : St :=
  ⟨⟨aset (aset w.fs dest (applyFetch drepo dbrepo)) dest
      { applyFetch drepo dbrepo with headRef := some (some rev) },
    addDir (addDir w.dirs dest) dest, w.remotes⟩,
   [.fetchEv (.file db.path) [tagsRefspec, headsRefspec], .resetEv dest rev]⟩

theorem copy_to_stale (db : GitDatabase) (rev : Oid) (dest : Path) (fuel : Nat) (w : World)
    (drepo dbrepo : WorldRepo) (og : GitObjKind)
    (hopen : alookup w.fs dest = some drepo)
    (hstale : GitCheckout.is_fresh ⟨db, dest, rev⟩ w = false)
    (hdb : alookup w.fs db.path = some dbrepo)
    (hrev : alookup dbrepo.store rev = some og) :
    GitDatabase.copy_to db rev dest fuel ⟨w, []⟩ =
      copyToTail db rev dest fuel (staleState db rev dest w drepo dbrepo) := by
  have hobj : alookup (applyFetch drepo dbrepo).store rev = some og := by
    simp only [applyFetch]
    exact alookup_append_left _ _ _ _ hrev
  have hfresh2 : GitCheckout.is_fresh ⟨db, dest, rev⟩
      ⟨aset (aset w.fs dest (applyFetch drepo dbrepo)) dest
          { applyFetch drepo dbrepo with headRef := some (some rev) },
        addDir (addDir w.dirs dest) dest, w.remotes⟩ = true := by
    simp [GitCheckout.is_fresh, alookup_aset_self, WorldRepo.revparse_single]
  simp only [GitDatabase.copy_to, copyToTail, staleState, checkout_fetch, fetch,
    GitCheckout.reset, git2_open, GitCheckout.update_submodules, M_bind_apply,
    M_pure_apply, getSt, emit, modifySt, setRepo, mthrow, resolveUrl, hopen, hstale, hdb,
    hobj, hfresh2, alookup_aset_self, Bool.false_eq_true, if_false, if_true,
    List.nil_append, List.cons_append, tagsRefspec, headsRefspec]

theorem memStr_filter_of_drop (l : List String) (f : String → Bool) (s : String)
    (hdrop : f s = false) : memStr (l.filter f) s = false := by
  induction l with
  | nil => simp [memStr]
  | cons x rest ih =>
    by_cases hx : x = s
    · subst hx
      simp [List.filter, hdrop, ih]
    · cases hf : f x <;> simp [List.filter, hf, memStr, hx, ih]

theorem underPath_self (p : Path) : underPath p p = true := by
  simp [underPath]

theorem copy_to_clone (db : GitDatabase) (rev : Oid) (dest : Path) (fuel : Nat) (w : World)
    (dbrepo : WorldRepo) (og : GitObjKind)
    (hopen : alookup w.fs dest = none)
    (hdb : alookup w.fs db.path = some dbrepo)
    (hrev : alookup dbrepo.store rev = some og)
    (hsep : underPath dest db.path = false) :
    ∃ (w' : World) (pre : List Event),
      (pre = [] ∨ pre = [.rmdirEv dest]) ∧
      GitDatabase.copy_to db rev dest fuel ⟨w, []⟩ =
        copyToTail db rev dest fuel
          ⟨w', pre ++ [.cloneEv (.file db.path) dest, .resetEv dest rev]⟩ ∧
      (∃ r', alookup w'.fs dest = some r' ∧ r'.headRef = some (some rev)) := by
  have hclone : alookup (cloneOf dbrepo).store rev = some og := hrev
  by_cases hcase :
      memStr (addDir w.dirs (String.intercalate "/" (dest.splitOn "/").dropLast)) dest = true
  · -- a directory pre-exists at the destination and is removed first
    have hfs2db :
        alookup (w.fs.filter (fun kv => !underPath dest kv.1)) db.path = some dbrepo := by
      rw [alookup_filter_of_keep _ _ _ (fun v => by simp [hsep])]
      exact hdb
    have hdirs2 :
        memStr ((addDir w.dirs (String.intercalate "/" (dest.splitOn "/").dropLast)).filter
          (fun d => !underPath dest d)) dest = false :=
      memStr_filter_of_drop _ _ _ (by simp [underPath_self])
    refine ⟨⟨aset (aset (w.fs.filter (fun kv => !underPath dest kv.1)) dest
          (cloneOf dbrepo)) dest { cloneOf dbrepo with headRef := some (some rev) },
        addDir (addDir
          ((addDir w.dirs (String.intercalate "/" (dest.splitOn "/").dropLast)).filter
            (fun d => !underPath dest d)) dest) dest,
        w.remotes⟩, [.rmdirEv dest], Or.inr rfl, ?_, ?_⟩
    · simp only [GitDatabase.copy_to, copyToTail, GitCheckout.clone_into, clone_repo,
        git2_clone, git2_init_bare, GitCheckout.reset, git2_open, rmdirRec, mkdirRec,
        GitCheckout.update_submodules, M_bind_apply, M_pure_apply, getSt, emit, modifySt,
        setRepo, mthrow, chainErrorM, resolveUrl, cloneOf, hopen, hdb, hrev, hclone,
        hfs2db, hdirs2, hcase, alookup_aset_self, Bool.false_eq_true, if_false, if_true,
        List.nil_append, List.cons_append, tagsRefspec, headsRefspec]
    · exact ⟨_, alookup_aset_self _ _ _, rfl⟩
  · -- nothing pre-exists at the destination
    refine ⟨⟨aset (aset w.fs dest (cloneOf dbrepo)) dest
          { cloneOf dbrepo with headRef := some (some rev) },
        addDir (addDir
          (addDir w.dirs (String.intercalate "/" (dest.splitOn "/").dropLast)) dest) dest,
        w.remotes⟩, [], Or.inl rfl, ?_, ?_⟩
    · simp only [GitDatabase.copy_to, copyToTail, GitCheckout.clone_into, clone_repo,
        git2_clone, git2_init_bare, GitCheckout.reset, git2_open, rmdirRec, mkdirRec,
        GitCheckout.update_submodules, M_bind_apply, M_pure_apply, getSt, emit, modifySt,
        setRepo, mthrow, chainErrorM, resolveUrl, cloneOf, hopen, hdb, hrev, hclone,
        hcase, alookup_aset_self, Bool.false_eq_true, if_false, if_true,
        List.nil_append, List.cons_append, tagsRefspec, headsRefspec]
    · exact ⟨_, alookup_aset_self _ _ _, rfl⟩

/-! ### Helper lemmas for the `copy_to` claims -/

theorem is_fresh_of_head (c : GitCheckout) (w : World) (r : WorldRepo)
    (h : alookup w.fs c.location = some r) (hh : r.headRef = some (some c.revision)) :
    GitCheckout.is_fresh c w = true := by
  simp [GitCheckout.is_fresh, h, WorldRepo.revparse_single, hh]

theorem head_of_is_fresh (c : GitCheckout) (w : World) (r : WorldRepo)
    (h : alookup w.fs c.location = some r)
    (hf : GitCheckout.is_fresh c w = true) : r.headRef = some (some c.revision) := by
  unfold GitCheckout.is_fresh at hf
  rw [h] at hf
  unfold WorldRepo.revparse_single at hf
  simp only [if_pos rfl] at hf
  cases hh : r.headRef with
  | none => rw [hh] at hf; simp at hf
  | some t =>
    cases t with
    | none => rw [hh] at hf; simp at hf
    | some o =>
      rw [hh] at hf
      simp only at hf
      rw [(oidHex_beq_iff o c.revision).mp hf]

theorem tame_copyToTail (db : GitDatabase) (rev : Oid) (dest : Path) (fuel : Nat) :
    tame dest (copyToTail db rev dest fuel) :=
  tame_bind (tame_chainErrorM _ (tame_update_submodules fuel dest))
    (fun _ => tame_pure dest _)

theorem copyToTail_no_assert (db : GitDatabase) (rev : Oid) (dest : Path) (fuel : Nat)
    (s : St) (msg : String) :
    (copyToTail db rev dest fuel s).1 ≠ .error (.assertFail msg) := by
  unfold copyToTail chainErrorM
  rw [M_bind_apply]
  rcases h : update_submodules_rec fuel dest s with ⟨r, s'⟩
  cases r with
  | ok a => simp [h]
  | error e => simp [h]

/-! ## Claims about `copy_to` -/

/-- Claim C1: in the present-stale state (a repository opens at the
destination but is not fresh), and given that the database's object store
contains the target revision, `copy_to` fetches into the destination from
the database's path (with the branch refspec plus the tag refspec) and
hard-resets to the revision; the freshness check then passes — the
`assert!(checkout.is_fresh())` never fails — and the destination's head is
the revision in the final world. -/
theorem claim_C1 (db : GitDatabase) (rev : Oid) (dest : Path) (fuel : Nat) (w : World)
    (drepo dbrepo : WorldRepo) (og : GitObjKind)
    (hopen : alookup w.fs dest = some drepo)
    (hstale : GitCheckout.is_fresh ⟨db, dest, rev⟩ w = false)
    (hdb : alookup w.fs db.path = some dbrepo)
    (hrev : alookup dbrepo.store rev = some og) :
    (∃ rest, (runM (GitDatabase.copy_to db rev dest fuel) w).2.events =
        .fetchEv (.file db.path) [tagsRefspec, headsRefspec] ::
        .resetEv dest rev :: rest) ∧
    (∀ msg, (runM (GitDatabase.copy_to db rev dest fuel) w).1 ≠
        .error (.assertFail msg)) ∧
    GitCheckout.is_fresh ⟨db, dest, rev⟩
      (runM (GitDatabase.copy_to db rev dest fuel) w).2.world = true := by
  have hrun := copy_to_stale db rev dest fuel w drepo dbrepo og hopen hstale hdb hrev
  have htail := tame_copyToTail db rev dest fuel
  refine ⟨?_, ?_, ?_⟩
  · obtain ⟨t, ht⟩ := htail.2.1 (staleState db rev dest w drepo dbrepo)
    refine ⟨t, ?_⟩
    rw [runM, hrun, ht]
    rfl
  · intro msg
    rw [runM, hrun]
    exact copyToTail_no_assert db rev dest fuel _ msg
  · have hpres := htail.1 (staleState db rev dest w drepo dbrepo) dest (under_self_false dest)
    rw [runM, hrun]
    refine is_fresh_of_head _ _ { applyFetch drepo dbrepo with headRef := some (some rev) }
      ?_ rfl
    rw [hpres.1]
    simp only [staleState]
    exact alookup_aset_self _ _ _

/-- A checkout repository sitting at object 2. -/
def c1CoRepo : WorldRepo :=
  { store := [(2, .commit)]
    refs := []
    branches := []
    headRef := some (some 2)
    revs := []
    submodules := [] }

/-- A database repository holding objects 1 and 2, at object 1. -/
def c1DbRepo : WorldRepo :=
  { store := [(1, .commit), (2, .commit)]
    refs := []
    branches := []
    headRef := some (some 1)
    revs := []
    submodules := [] }

/-- Witness world for C1: a stale checkout at `co` whose head is object 2
while the database at `db` holds the target object 1. -/
def c1World : World :=
  { fs := [("co", c1CoRepo), ("db", c1DbRepo)]
    dirs := ["co", "db"]
    remotes := [] }

/-- Witness for C1 at the concrete stale world. -/
theorem claim_C1_witness :
    alookup c1World.fs "co" = some c1CoRepo ∧
    GitCheckout.is_fresh ⟨⟨⟨.remote "u"⟩, "db"⟩, "co", 1⟩ c1World = false ∧
    GitCheckout.is_fresh ⟨⟨⟨.remote "u"⟩, "db"⟩, "co", 1⟩
      (runM (GitDatabase.copy_to ⟨⟨.remote "u"⟩, "db"⟩ 1 "co" 1) c1World).2.world = true := by
  refine ⟨by decide, by decide, ?_⟩
  exact (claim_C1 ⟨⟨.remote "u"⟩, "db"⟩ 1 "co" 1 c1World c1CoRepo c1DbRepo .commit
    (by decide) (by decide) (by decide) (by decide)).2.2

/-- Claim C9: when no repository opens at the destination, `copy_to` clones
from the database's local path (not the remote URL) into the destination —
removing any pre-existing directory there first — and then unconditionally
hard-resets the new working tree to the revision before any submodule-sync
event; the destination's head afterwards is the revision. -/
theorem claim_C9 (db : GitDatabase) (rev : Oid) (dest : Path) (fuel : Nat) (w : World)
    (dbrepo : WorldRepo) (og : GitObjKind)
    (hopen : alookup w.fs dest = none)
    (hdb : alookup w.fs db.path = some dbrepo)
    (hrev : alookup dbrepo.store rev = some og)
    (hsep : underPath dest db.path = false) :
    ∃ pre rest, (pre = [] ∨ pre = [.rmdirEv dest]) ∧
      (runM (GitDatabase.copy_to db rev dest fuel) w).2.events =
        pre ++ .cloneEv (.file db.path) dest :: .resetEv dest rev :: rest ∧
      (∃ r', alookup (runM (GitDatabase.copy_to db rev dest fuel) w).2.world.fs dest =
          some r' ∧ r'.headRef = some (some rev)) := by
  obtain ⟨w', pre, hpre, hrun, r', hr', hh⟩ :=
    copy_to_clone db rev dest fuel w dbrepo og hopen hdb hrev hsep
  have htail := tame_copyToTail db rev dest fuel
  obtain ⟨t, ht⟩ := htail.2.1
    ⟨w', pre ++ [.cloneEv (.file db.path) dest, .resetEv dest rev]⟩
  refine ⟨pre, t, hpre, ?_, ?_⟩
  · rw [runM, hrun, ht]
    show pre ++ [Event.cloneEv (Url.file db.path) dest, Event.resetEv dest rev] ++ t = _
    rw [List.append_assoc]
    rfl
  · have hpres := htail.1
      ⟨w', pre ++ [.cloneEv (.file db.path) dest, .resetEv dest rev]⟩
      dest (under_self_false dest)
    rw [runM, hrun]
    rw [hpres.1]
    exact ⟨r', hr', hh⟩

/-- A bare database repository holding object 1. -/
def c9DbRepo : WorldRepo :=
  { store := [(1, .commit)]
    refs := []
    branches := []
    headRef := some (some 1)
    revs := []
    submodules := [] }

/-- Witness world for C9: nothing at `co`, a database at `db` holding
object 1. -/
def c9World : World :=
  { fs := [("db", c9DbRepo)]
    dirs := ["db"]
    remotes := [] }

/-- Witness for C9 at the concrete absent-destination world. -/
theorem claim_C9_witness :
    alookup c9World.fs "co" = none ∧
    underPath "co" "db" = false ∧
    (∃ pre rest, (pre = [] ∨ pre = [.rmdirEv "co"]) ∧
      (runM (GitDatabase.copy_to ⟨⟨.remote "u"⟩, "db"⟩ 1 "co" 1) c9World).2.events =
        pre ++ .cloneEv (.file "db") "co" :: .resetEv "co" 1 :: rest ∧
      (∃ r', alookup
          (runM (GitDatabase.copy_to ⟨⟨.remote "u"⟩, "db"⟩ 1 "co" 1) c9World).2.world.fs
          "co" = some r' ∧ r'.headRef = some (some 1))) := by
  refine ⟨by decide, by decide, ?_⟩
  exact claim_C9 ⟨⟨.remote "u"⟩, "db"⟩ 1 "co" 1 c9World c9DbRepo .commit (by decide)
    (by decide) (by decide) (by decide)

/-- Claim C2: `copy_to` is idempotent for a revision present in the
database: after the first call the destination's head is the revision;
the second call takes the fresh short-circuit — it is exactly the
submodule-sync tail, performing no fetch, clone or reset before submodule
sync — and the destination's head is still the revision afterwards. -/
theorem claim_C2 (db : GitDatabase) (rev : Oid) (dest : Path) (fuel : Nat) (w : World)
    (dbrepo : WorldRepo) (og : GitObjKind)
    (hdb : alookup w.fs db.path = some dbrepo)
    (hrev : alookup dbrepo.store rev = some og)
    (hsep : underPath dest db.path = false) :
    (∃ r₁, alookup (runM (GitDatabase.copy_to db rev dest fuel) w).2.world.fs dest =
        some r₁ ∧ r₁.headRef = some (some rev)) ∧
    runM (GitDatabase.copy_to db rev dest fuel)
        (runM (GitDatabase.copy_to db rev dest fuel) w).2.world =
      runM (copyToTail db rev dest fuel)
        (runM (GitDatabase.copy_to db rev dest fuel) w).2.world ∧
    (∃ r₂, alookup (runM (GitDatabase.copy_to db rev dest fuel)
        (runM (GitDatabase.copy_to db rev dest fuel) w).2.world).2.world.fs dest =
        some r₂ ∧ r₂.headRef = some (some rev)) := by
  have htail := tame_copyToTail db rev dest fuel
  have h1 : ∃ r₁, alookup (runM (GitDatabase.copy_to db rev dest fuel) w).2.world.fs dest =
      some r₁ ∧ r₁.headRef = some (some rev) := by
    cases hopen : alookup w.fs dest with
    | none =>
      obtain ⟨w', pre, hpre, hrun, r', hr', hh⟩ :=
        copy_to_clone db rev dest fuel w dbrepo og hopen hdb hrev hsep
      have hpres := htail.1
        ⟨w', pre ++ [.cloneEv (.file db.path) dest, .resetEv dest rev]⟩
        dest (under_self_false dest)
      rw [runM, hrun, hpres.1]
      exact ⟨r', hr', hh⟩
    | some drepo =>
      cases hfr : GitCheckout.is_fresh ⟨db, dest, rev⟩ w with
      | false =>
        have hrun := copy_to_stale db rev dest fuel w drepo dbrepo og hopen hfr hdb hrev
        have hpres := htail.1 (staleState db rev dest w drepo dbrepo) dest
          (under_self_false dest)
        rw [runM, hrun, hpres.1]
        simp only [staleState]
        exact ⟨_, alookup_aset_self _ _ _, rfl⟩
      | true =>
        have hrun := copy_to_fresh db rev dest fuel w drepo hopen hfr
        have hpres := htail.1 ⟨w, []⟩ dest (under_self_false dest)
        rw [runM, hrun, hpres.1]
        exact ⟨drepo, hopen, head_of_is_fresh ⟨db, dest, rev⟩ w drepo hopen hfr⟩
  obtain ⟨r₁, hr₁, hh₁⟩ := h1
  have hfresh1 : GitCheckout.is_fresh ⟨db, dest, rev⟩
      (runM (GitDatabase.copy_to db rev dest fuel) w).2.world = true :=
    is_fresh_of_head _ _ r₁ hr₁ hh₁
  have hrun2 := copy_to_fresh db rev dest fuel
    (runM (GitDatabase.copy_to db rev dest fuel) w).2.world r₁ hr₁ hfresh1
  refine ⟨⟨r₁, hr₁, hh₁⟩, hrun2, ?_⟩
  have hpres2 := htail.1
    ⟨(runM (GitDatabase.copy_to db rev dest fuel) w).2.world, []⟩
    dest (under_self_false dest)
  rw [runM, hrun2, hpres2.1]
  exact ⟨r₁, hr₁, hh₁⟩

/-- Witness for C2 at the concrete absent-destination world of C9: after the
first call the checkout at `co` is at revision 1, and the second call
short-circuits to submodule sync. -/
theorem claim_C2_witness :
    alookup c9World.fs "db" = some c9DbRepo ∧
    alookup c9DbRepo.store 1 = some .commit ∧
    underPath "co" "db" = false ∧
    runM (GitDatabase.copy_to ⟨⟨.remote "u"⟩, "db"⟩ 1 "co" 1)
        (runM (GitDatabase.copy_to ⟨⟨.remote "u"⟩, "db"⟩ 1 "co" 1) c9World).2.world =
      runM (copyToTail ⟨⟨.remote "u"⟩, "db"⟩ 1 "co" 1)
        (runM (GitDatabase.copy_to ⟨⟨.remote "u"⟩, "db"⟩ 1 "co" 1) c9World).2.world := by
  refine ⟨by decide, by decide, by decide, ?_⟩
  exact (claim_C2 ⟨⟨.remote "u"⟩, "db"⟩ 1 "co" 1 c9World c9DbRepo .commit (by decide)
    (by decide) (by decide)).2.1

/-! ### Every fetch call site uses the branch refspec -/

theorem fetch_events (rp : Path) (url : Url) (refspec : String) (s : St) :
    (fetch rp url refspec s).2.events =
      s.events ++ [.fetchEv url [tagsRefspec, refspec]] := by
  unfold fetch
  simp only [M_bind_apply, emit, modifySt, getSt, tagsRefspec]
  cases hres : resolveUrl s.world url with
  | none => simp [mthrow]
  | some src =>
    cases halk : alookup s.world.fs rp with
    | none => simp [mthrow]
    | some dst => simp [setRepo, modifySt]

theorem git2_open_apply (p : Path) (s : St) :
    git2_open p s = (match alookup s.world.fs p with
      | some r => (.ok r, s)
      | none => (.error (.giterr ("failed to open repository at " ++ p)), s)) := by
  unfold git2_open
  rw [M_bind_apply]
  cases halk : alookup s.world.fs p <;> simp [getSt, halk, mthrow, M_pure_apply]

theorem eg_git2_open (p : Path) : emitsGood (git2_open p) :=
  eg_of_noEvents _ (fun s => by
    rw [git2_open_apply]
    cases alookup s.world.fs p <;> rfl)

theorem eg_fetch_heads (rp : Path) (url : Url) : emitsGood (fetch rp url headsRefspec) := by
  unfold fetch
  refine eg_bind (eg_emit _ ?_) ?_
  · intro u rs h; cases h; rfl
  intro _
  refine eg_bind (eg_of_noEvents _ fun _ => rfl) ?_
  intro s
  cases hres : resolveUrl s.world url with
  | none => exact eg_of_noEvents _ fun _ => rfl
  | some src =>
    cases halk : alookup s.world.fs rp with
    | none => exact eg_of_noEvents _ fun _ => rfl
    | some dst => exact eg_setRepo _ _

theorem eg_git2_clone (url : Url) (into : Path) : emitsGood (git2_clone url into) := by
  unfold git2_clone
  refine eg_bind (eg_emit _ ?_) ?_
  · intro u rs h; cases h
  intro _
  refine eg_bind (eg_of_noEvents _ fun _ => rfl) ?_
  intro s
  by_cases hd : memStr s.world.dirs into = true
  · rw [if_pos hd]
    exact eg_of_noEvents _ fun _ => rfl
  · rw [if_neg hd]
    cases hres : resolveUrl s.world url with
    | none => exact eg_of_noEvents _ fun _ => rfl
    | some src =>
      exact eg_bind (eg_setRepo _ _) fun _ => eg_of_noEvents _ fun _ => rfl

theorem eg_rmdirRec (p : Path) : emitsGood (rmdirRec p) := by
  unfold rmdirRec
  refine eg_bind (eg_emit _ ?_) ?_
  · intro u rs h; cases h
  intro _
  exact eg_of_noEvents _ fun _ => rfl

theorem eg_mkdirRec (p : Path) : emitsGood (mkdirRec p) :=
  eg_of_noEvents _ fun _ => rfl

theorem eg_reset (c : GitCheckout) : emitsGood (GitCheckout.reset c) := by
  unfold GitCheckout.reset
  refine eg_bind (eg_git2_open _) ?_
  intro repo
  cases hst : alookup repo.store c.revision with
  | none => exact eg_of_noEvents _ fun _ => rfl
  | some k =>
    refine eg_bind (eg_emit _ ?_) ?_
    · intro u rs h; cases h
    intro _
    exact eg_setRepo _ _

theorem eg_checkout_fetch (c : GitCheckout) : emitsGood (checkout_fetch c) := by
  unfold checkout_fetch
  exact eg_fetch_heads _ _

theorem eg_clone_repo (source into : Path) : emitsGood (clone_repo source into) := by
  unfold clone_repo
  refine eg_bind (eg_chainErrorM _ (eg_mkdirRec _)) ?_
  intro _
  refine eg_bind (eg_of_noEvents _ fun _ => rfl) ?_
  intro s
  refine eg_bind ?_ ?_
  · by_cases hd : memStr s.world.dirs into = true
    · rw [if_pos hd]
      exact eg_chainErrorM _ (eg_rmdirRec _)
    · rw [if_neg hd]
      exact eg_of_noEvents _ fun _ => rfl
  · intro _
    exact eg_chainErrorM _ (eg_git2_clone _ _)

theorem eg_checkout_clone_into (into : Path) (db : GitDatabase) (rev : Oid) :
    emitsGood (GitCheckout.clone_into into db rev) := by
  unfold GitCheckout.clone_into
  refine eg_bind (eg_clone_repo _ _) ?_
  intro _
  exact eg_bind (eg_reset _) fun _ => eg_of_noEvents _ fun _ => rfl

theorem eg_copy_to (db : GitDatabase) (rev : Oid) (dest : Path) (fuel : Nat) :
    emitsGood (GitDatabase.copy_to db rev dest fuel) := by
  unfold GitDatabase.copy_to
  refine eg_bind (eg_of_noEvents _ fun _ => rfl) ?_
  intro s
  refine eg_bind ?_ ?_
  · cases halk : alookup s.world.fs dest with
    | some drepo =>
      by_cases hfr :
          GitCheckout.is_fresh ⟨db, dest, rev⟩ s.world = true
      · rw [if_pos hfr]
        exact eg_of_noEvents _ fun _ => rfl
      · rw [if_neg hfr]
        refine eg_bind (eg_checkout_fetch _) ?_
        intro _
        refine eg_bind (eg_reset _) ?_
        intro _
        refine eg_bind (eg_of_noEvents _ fun _ => rfl) ?_
        intro s'
        by_cases hf2 :
            GitCheckout.is_fresh ⟨db, dest, rev⟩ s'.world = true
        · rw [if_pos hf2]
          exact eg_of_noEvents _ fun _ => rfl
        · rw [if_neg hf2]
          exact eg_of_noEvents _ fun _ => rfl
    | none => exact eg_checkout_clone_into dest db rev
  · intro checkout
    refine eg_bind
      (eg_chainErrorM _ (tame_update_submodules fuel checkout.location).2.2) ?_
    intro _
    exact eg_of_noEvents _ fun _ => rfl

theorem eg_remote_clone_into (r : GitRemote) (dst : Path) :
    emitsGood (GitRemote.clone_into r dst) := by
  unfold GitRemote.clone_into
  refine eg_bind (eg_of_noEvents _ fun _ => rfl) ?_
  intro s
  refine eg_bind ?_ ?_
  · by_cases hd : memStr s.world.dirs dst = true
    · rw [if_pos hd]
      exact eg_rmdirRec _
    · rw [if_neg hd]
      exact eg_of_noEvents _ fun _ => rfl
  · intro _
    refine eg_bind (eg_mkdirRec _) ?_
    intro _
    refine eg_bind ?_ ?_
    · unfold git2_init_bare
      exact eg_bind (eg_setRepo _ _) fun _ => eg_of_noEvents _ fun _ => rfl
    · intro _
      refine eg_bind (eg_fetch_heads _ _) ?_
      intro _
      exact eg_of_noEvents _ fun _ => rfl

theorem eg_remote_checkout (r : GitRemote) (into : Path) :
    emitsGood (GitRemote.checkout r into) := by
  unfold GitRemote.checkout
  refine eg_bind (eg_of_noEvents _ fun _ => rfl) ?_
  intro s
  refine eg_bind ?_ ?_
  · cases halk : alookup s.world.fs into with
    | some repo =>
      refine eg_chainErrorM _ ?_
      unfold GitRemote.fetch_into
      exact eg_fetch_heads _ _
    | none =>
      refine eg_bind (eg_chainErrorM _ (eg_remote_clone_into r into)) ?_
      intro _
      exact eg_of_noEvents _ fun _ => rfl
  · intro _
    exact eg_of_noEvents _ fun _ => rfl

/-- Claim C4: the shared fetch primitive requests exactly two refspecs in
one fetch operation — the caller's refspec plus the fixed tag refspec — and
every fetch event a run of database population (`GitRemote::checkout`) or of
checkout materialization (`copy_to`, including checkout repair and the whole
submodule walk) produces carries exactly the tag refspec plus the
`refs/heads/*:refs/heads/*` refspec. -/
theorem claim_C4 :
    (∀ (rp : Path) (url : Url) (refspec : String) (s : St),
       (fetch rp url refspec s).2.events =
         s.events ++ [.fetchEv url [tagsRefspec, refspec]]) ∧
    (∀ (r : GitRemote) (into : Path) (w : World) (e : Event) (url : Url)
       (rs : List String),
       e ∈ (runM (r.checkout into) w).2.events → e = .fetchEv url rs →
       rs = [tagsRefspec, headsRefspec]) ∧
    (∀ (db : GitDatabase) (rev : Oid) (dest : Path) (fuel : Nat) (w : World) (e : Event)
       (url : Url) (rs : List String),
       e ∈ (runM (GitDatabase.copy_to db rev dest fuel) w).2.events →
       e = .fetchEv url rs → rs = [tagsRefspec, headsRefspec]) := by
  refine ⟨fetch_events, ?_, ?_⟩
  · intro r into w e url rs he heq
    rcases eg_remote_checkout r into ⟨w, []⟩ e he with h | h
    · cases h
    · exact h url rs heq
  · intro db rev dest fuel w e url rs he heq
    rcases eg_copy_to db rev dest fuel ⟨w, []⟩ e he with h | h
    · cases h
    · exact h url rs heq

/-- An empty repository state. -/
def emptyRepo : WorldRepo :=
  { store := []
    refs := []
    branches := []
    headRef := none
    revs := []
    submodules := [] }

/-- Witness world for C4: a database repository exists at `db` and the
remote `u` answers. -/
def c4World : World :=
  { fs := [("db", emptyRepo)]
    dirs := ["db"]
    remotes := [("u", emptyRepo)] }

/-- Witness for C4: database population at the concrete world emits one
fetch event, and its refspec list is the tag refspec plus the branch
refspec. -/
theorem claim_C4_witness :
    (Event.fetchEv (.remote "u") [tagsRefspec, headsRefspec] ∈
      (runM (GitRemote.checkout ⟨.remote "u"⟩ "db") c4World).2.events) ∧
    [tagsRefspec, headsRefspec] = [tagsRefspec, headsRefspec] := by
  refine ⟨by decide, ?_⟩
  exact claim_C4.2.1 ⟨.remote "u"⟩ "db" c4World
    (.fetchEv (.remote "u") [tagsRefspec, headsRefspec]) (.remote "u")
    [tagsRefspec, headsRefspec] (by decide) rfl

/-! ### The submodule decision per entry -/

theorem getSt_bind {α : Type} (k : St → M α) (s : St) : (getSt >>= k) s = k s s := rfl

theorem M_bind_assoc {α β γ : Type} (m : M α) (f : α → M β) (g : β → M γ) :
    (m >>= f) >>= g = m >>= fun a => f a >>= g := by
  funext s
  simp only [M_bind_apply]
  rcases hms : m s with ⟨r, s'⟩
  cases r with
  | ok a => rfl
  | error e => rfl

theorem chainErrorM_snd {α : Type} (m : M α) (c : CargoError) (s : St) :
    (chainErrorM m c s).2 = (m s).2 := by
  unfold chainErrorM
  rcases hms : m s with ⟨r, s'⟩
  cases r <;> rfl

theorem bind_events_cons {α β : Type} (m : M α) (f : α → M β) (e : Event) (s : St)
    (hm : (m s).2.events = s.events ++ [e])
    (hf : ∀ a, appendsTrace (f a)) :
    ∃ t, ((m >>= f) s).2.events = s.events ++ e :: t := by
  rw [M_bind_apply]
  rcases hms : m s with ⟨r, s'⟩
  rw [hms] at hm
  cases r with
  | ok a =>
    obtain ⟨t, ht⟩ := hf a s'
    refine ⟨t, ?_⟩
    rw [ht, hm, List.append_assoc]
    rfl
  | error err =>
    refine ⟨[], ?_⟩
    rw [hm]

theorem at_subResetRecurse (recur : Path → M Unit) (subPath : Path) (head : Oid)
    (hrec : appendsTrace (recur subPath)) :
    appendsTrace (subResetRecurse recur subPath head) := by
  unfold subResetRecurse
  refine at_bind (at_of_noEvents _ fun _ => rfl) ?_
  intro s
  cases halk : alookup s.world.fs subPath with
  | none => exact at_of_noEvents _ fun _ => rfl
  | some r =>
    have hgoal : appendsTrace (match alookup r.store head with
        | none => (mthrow (.giterr ("object " ++ oidHex head ++ " not found")) : M Unit)
        | some _ => do
            emit (.resetEv subPath head)
            setRepo subPath { r with headRef := some (some head) }
            recur subPath) := by
      cases hst : alookup r.store head with
      | none => exact at_of_noEvents _ fun _ => rfl
      | some k =>
        refine at_bind (at_emit _) ?_
        intro _
        exact at_bind (at_setRepo _ _) (fun _ => hrec)
    exact hgoal

theorem subFetchReset_events {α : Type} (recur : Path → M Unit) (subPath : Path)
    (url : Url) (name : Option String) (head : Oid) (k : Unit → M α) (s : St)
    (hrec : appendsTrace (recur subPath)) (hk : ∀ a, appendsTrace (k a)) :
    ∃ t, ((subFetchReset recur subPath url name head >>= k) s).2.events =
      s.events ++ .fetchEv url [tagsRefspec, headsRefspec] :: t := by
  unfold subFetchReset
  rw [M_bind_assoc]
  refine bind_events_cons _ _ _ s ?_ ?_
  · rw [chainErrorM_snd]
    exact fetch_events subPath url headsRefspec s
  · intro a
    exact at_bind (at_subResetRecurse recur subPath head hrec) hk

theorem git2_clone_events {α : Type} (url : Url) (into : Path) (k : WorldRepo → M α)
    (s : St) (hk : ∀ a, appendsTrace (k a)) :
    ∃ t, ((git2_clone url into >>= k) s).2.events =
      s.events ++ .cloneEv url into :: t := by
  rw [M_bind_apply]
  unfold git2_clone
  simp only [M_bind_apply, emit, modifySt, getSt]
  by_cases hd : memStr s.world.dirs into = true
  · rw [if_pos hd]
    exact ⟨[], by simp [mthrow]⟩
  · rw [if_neg hd]
    cases hres : resolveUrl s.world url with
    | none => exact ⟨[], by simp [mthrow]⟩
    | some src =>
      simp only [M_bind_apply, setRepo, modifySt, M_pure_apply]
      obtain ⟨t, ht⟩ := hk (cloneOf src)
        ⟨⟨aset s.world.fs into (cloneOf src), addDir s.world.dirs into, s.world.remotes⟩,
          s.events ++ [.cloneEv url into]⟩
      refine ⟨t, ?_⟩
      rw [ht]
      simp [List.append_assoc]

/-- Claim C10: during submodule synchronization, an entry with a recorded
head commit whose local repository cannot be opened, or opens but whose
`HEAD` cannot be read, is treated as not checked out: a fresh clone of the
submodule's URL into its path under the parent is attempted (even when a
directory already exists at that path); the entry is skipped, with no fetch
or reset, exactly when the repository opens and its `HEAD` target equals the
recorded commit — when the repository opens with a different `HEAD` target
the entry is not skipped: the run is the fetch-and-reset repair tail, whose
first event is the fetch of the submodule's URL. -/
theorem claim_C10 (fuel : Nat) (parent : Path) (child : SubmoduleEntry)
    (rest : List SubmoduleEntry) (url : Url) (head : Oid) (s : St)
    (hurl : child.url = some url) (hhead : child.headId = some head) :
    (alookup s.world.fs (pathJoin parent child.path) = none →
      ∃ t, (processSubs (update_submodules_rec fuel) parent (child :: rest) s).2.events =
        s.events ++ .cloneEv url (pathJoin parent child.path) :: t) ∧
    (∀ r, alookup s.world.fs (pathJoin parent child.path) = some r →
      r.headRef = none →
      memStr s.world.dirs (pathJoin parent child.path) = true →
      ∃ t, (processSubs (update_submodules_rec fuel) parent (child :: rest) s).2.events =
        s.events ++ .cloneEv url (pathJoin parent child.path) :: t) ∧
    (∀ r, alookup s.world.fs (pathJoin parent child.path) = some r →
      r.headRef = some (some head) →
      processSubs (update_submodules_rec fuel) parent (child :: rest) s =
        processSubs (update_submodules_rec fuel) parent rest s) ∧
    (∀ r t, alookup s.world.fs (pathJoin parent child.path) = some r →
      r.headRef = some t → some head ≠ t →
      (processSubs (update_submodules_rec fuel) parent (child :: rest) s =
        (subFetchReset (update_submodules_rec fuel) (pathJoin parent child.path) url
            child.name head >>= fun _ =>
          processSubs (update_submodules_rec fuel) parent rest) s) ∧
      (∃ tl, (processSubs (update_submodules_rec fuel) parent
          (child :: rest) s).2.events =
        s.events ++ .fetchEv url [tagsRefspec, headsRefspec] :: tl)) := by
  have hsub : under parent (pathJoin parent child.path) = true :=
    under_append parent child.path
  have hk : ∀ a : WorldRepo, appendsTrace
      ((fun _ : WorldRepo =>
        subFetchReset (update_submodules_rec fuel) (pathJoin parent child.path) url
            child.name head >>= fun _ =>
          processSubs (update_submodules_rec fuel) parent rest) a) := by
    intro a
    exact at_bind
      (tame_subFetchReset _ _ url child.name head hsub
        (tame_mono hsub (tame_update_submodules fuel _))).2.1
      (fun _ => (processSubs_tame parent _
        (fun sub h => tame_mono h (tame_update_submodules fuel sub)) rest).2.1)
  refine ⟨fun hopen => ?_, fun r hr hhr hdir => ?_, fun r hr hhr => ?_,
    fun r t hr hhr hne => ?_⟩
  · have hs : subHeadAndRepo s.world (pathJoin parent child.path) =
        .error (.giterr ("failed to open submodule at " ++ pathJoin parent child.path)) := by
      simp [subHeadAndRepo, hopen]
    simp only [processSubs, hurl, hhead, getSt_bind, hs]
    exact git2_clone_events url _ _ s hk
  · have hs : subHeadAndRepo s.world (pathJoin parent child.path) =
        .error (.giterr "reference 'HEAD' not found") := by
      simp [subHeadAndRepo, hr, hhr]
    simp only [processSubs, hurl, hhead, getSt_bind, hs]
    exact git2_clone_events url _ _ s hk
  · have hs : subHeadAndRepo s.world (pathJoin parent child.path) = .ok (some head) := by
      simp [subHeadAndRepo, hr, hhr]
    simp [processSubs, hurl, hhead, getSt_bind, hs]
  · have hs : subHeadAndRepo s.world (pathJoin parent child.path) = .ok t := by
      simp [subHeadAndRepo, hr, hhr]
    have hrunEq : processSubs (update_submodules_rec fuel) parent (child :: rest) s =
        (subFetchReset (update_submodules_rec fuel) (pathJoin parent child.path) url
            child.name head >>= fun _ =>
          processSubs (update_submodules_rec fuel) parent rest) s := by
      simp only [processSubs, hurl, hhead, getSt_bind, hs, if_neg hne]
    refine ⟨hrunEq, ?_⟩
    rw [hrunEq]
    exact subFetchReset_events _ _ url child.name head _ s
      (tame_update_submodules fuel _).2.1
      (fun a => (processSubs_tame parent _
        (fun sub h => tame_mono h (tame_update_submodules fuel sub)) rest).2.1)

/-- A submodule repository checked out at object 5. -/
def c10SubRepo : WorldRepo :=
  { store := [(5, .commit)]
    refs := []
    branches := []
    headRef := some (some 5)
    revs := []
    submodules := [] }

/-- The submodule entry used in the C10 witness. -/
def c10Child : SubmoduleEntry :=
  { name := some "sub"
    path := "m"
    url := some (.remote "su")
    headId := some 5 }

/-- A submodule repository checked out at the wrong object 4. -/
def c10WrongRepo : WorldRepo :=
  { store := [(4, .commit)]
    refs := []
    branches := []
    headRef := some (some 4)
    revs := []
    submodules := [] }

/-- Witness for C10: with nothing at `p/m` the clone of the submodule URL is
attempted first; with `p/m` checked out at the recorded commit 5 the entry
is skipped entirely; with `p/m` checked out at the wrong commit 4 the entry
is not skipped — the run is the repair tail and its first event is the
fetch of the submodule's URL. -/
theorem claim_C10_witness :
    (alookup (⟨⟨[], [], []⟩, []⟩ : St).world.fs (pathJoin "p" c10Child.path) = none ∧
      ∃ t, (processSubs (update_submodules_rec 1) "p" [c10Child]
          ⟨⟨[], [], []⟩, []⟩).2.events =
        [] ++ .cloneEv (.remote "su") (pathJoin "p" c10Child.path) :: t) ∧
    (alookup (⟨⟨[("p/m", c10SubRepo)], ["p/m"], []⟩, []⟩ : St).world.fs
        (pathJoin "p" c10Child.path) = some c10SubRepo ∧
      c10SubRepo.headRef = some (some 5) ∧
      processSubs (update_submodules_rec 1) "p" [c10Child]
          ⟨⟨[("p/m", c10SubRepo)], ["p/m"], []⟩, []⟩ =
        processSubs (update_submodules_rec 1) "p" []
          ⟨⟨[("p/m", c10SubRepo)], ["p/m"], []⟩, []⟩) ∧
    (alookup (⟨⟨[("p/m", c10WrongRepo)], ["p/m"], []⟩, []⟩ : St).world.fs
        (pathJoin "p" c10Child.path) = some c10WrongRepo ∧
      c10WrongRepo.headRef = some (some 4) ∧
      some 5 ≠ (some 4 : Option Oid) ∧
      (processSubs (update_submodules_rec 1) "p" [c10Child]
          ⟨⟨[("p/m", c10WrongRepo)], ["p/m"], []⟩, []⟩ =
        (subFetchReset (update_submodules_rec 1) (pathJoin "p" c10Child.path)
            (.remote "su") c10Child.name 5 >>= fun _ =>
          processSubs (update_submodules_rec 1) "p" [])
          ⟨⟨[("p/m", c10WrongRepo)], ["p/m"], []⟩, []⟩) ∧
      (∃ tl, (processSubs (update_submodules_rec 1) "p" [c10Child]
          ⟨⟨[("p/m", c10WrongRepo)], ["p/m"], []⟩, []⟩).2.events =
        [] ++ .fetchEv (.remote "su") [tagsRefspec, headsRefspec] :: tl)) := by
  refine ⟨?_, ?_, ?_⟩
  · refine ⟨by decide, ?_⟩
    exact (claim_C10 1 "p" c10Child [] (.remote "su") 5 ⟨⟨[], [], []⟩, []⟩ rfl rfl).1
      (by decide)
  · refine ⟨by decide, rfl, ?_⟩
    exact (claim_C10 1 "p" c10Child [] (.remote "su") 5
      ⟨⟨[("p/m", c10SubRepo)], ["p/m"], []⟩, []⟩ rfl rfl).2.2.1 c10SubRepo (by decide) rfl
  · obtain ⟨heq, htr⟩ := (claim_C10 1 "p" c10Child [] (.remote "su") 5
      ⟨⟨[("p/m", c10WrongRepo)], ["p/m"], []⟩, []⟩ rfl rfl).2.2.2 c10WrongRepo (some 4)
      (by decide) rfl (by decide)
    exact ⟨by decide, rfl, by decide, heq, htr⟩

end CargoGit
